import Mathlib

/-!
Verification of the otelbox configuration-resolution and expansion engine.

The Go source is shallowly embedded: Go structs become structures, Go maps
become insertion-ordered association lists, fallible functions return
`Except String`, and the runtime object identity used by the lifecycle
manager is modelled by allocation counters.
-/

namespace Otelbox

/-! ## Association-list helpers (Go map reads/writes) -/
def lookupA {α : Type} : List (String × α) → String → Option α
  | [], _ => none
  | (k, v) :: rest, key => if k = key then some v else lookupA rest key

/-- Go map assignment `m[k] = v`: overwrite if present, otherwise add. -/
def mapSet {α : Type} : List (String × α) → String → α → List (String × α)
  | [], k, v => [(k, v)]
  | (k0, v0) :: rest, k, v =>
    if k0 = k then (k0, v) :: rest else (k0, v0) :: mapSet rest k v

/-! ## Placeholder scanning (`iteratorPattern`, `extractPlaceholderNames`)

The Go code matches the regular expression `\{([a-zA-Z_][a-zA-Z0-9_]*)\}`
with `FindAllStringSubmatch`, which finds the leftmost non-overlapping
matches.  Strings are embedded as `List Char`. -/
def isNameStart (c : Char) : Bool := c.isAlpha || c = '_'

def isNameChar (c : Char) : Bool := c.isAlphanum || c = '_'

/-- The list of capture-group-1 results of the leftmost non-overlapping
matches of `iteratorPattern`, i.e. `extractPlaceholderNames`. -/
def scanTokens : List Char → List (List Char)
  | [] => []
  | '{' :: d :: rest2 =>
    if isNameStart d then
      match _h : rest2.dropWhile isNameChar with
      | '}' :: rest3 => (d :: rest2.takeWhile isNameChar) :: scanTokens rest3
      | _ => scanTokens (d :: rest2)
    else scanTokens (d :: rest2)
  | ['{'] => []
  | _ :: rest => scanTokens rest
termination_by cs => cs.length
decreasing_by
  · simp only [List.length_cons]
    have hdw : ∀ l : List Char, (l.dropWhile isNameChar).length ≤ l.length := by
      intro l
      induction l with
      | nil => simp [List.dropWhile]
      | cons c rest ih =>
        simp only [List.dropWhile]
        cases isNameChar c with
        | true => simpa using Nat.le_succ_of_le ih
        | false => simp
    have h1 : ('}' :: rest3).length ≤ rest2.length := by
      rw [← _h]; exact hdw rest2
    simp only [List.length_cons] at h1
    omega
  · simp only [List.length_cons]; omega
  · simp only [List.length_cons]; omega
  · simp only [List.length_cons]; omega

/-- A string is a valid placeholder name iff it fully matches
`[a-zA-Z_][a-zA-Z0-9_]*`. -/
def validNameL : List Char → Prop
  | [] => False
  | c :: rest => isNameStart c = true ∧ ∀ d ∈ rest, isNameChar d = true

instance (cs : List Char) : Decidable (validNameL cs) := by
  cases cs with
  | nil => exact isFalse (fun h => h)
  | cons c rest => exact inferInstanceAs (Decidable (_ ∧ _))

/-- `pat` occurs as a contiguous substring. -/
def occursIn (pat s : List Char) : Prop := ∃ a b, s = a ++ pat ++ b

instance (pat s : List Char) : Decidable (occursIn pat s) :=
  decidable_of_iff (pat <:+: s) (by
    constructor
    · rintro ⟨a, b, hab⟩; exact ⟨a, b, hab.symm⟩
    · rintro ⟨a, b, hab⟩; exact ⟨a, b, hab.symm⟩)

/-- The braced token for name `n`. -/
def braced (n : List Char) : List Char := '{' :: n ++ ['}']

/-! ## Substitution (`substitutePlaceholders`, `strings.ReplaceAll`)

`strings.ReplaceAll` replaces the leftmost non-overlapping occurrences of a
(nonempty) pattern.  `replaceAllL` is its `List Char` embedding; `splitOnL`
is the matching split, used to state what "every occurrence replaced"
means. -/
def replaceAllL (pat v : List Char) : List Char → List Char
  | [] => []
  | c :: rest =>
    if pat.isPrefixOf (c :: rest)
    then v ++ replaceAllL pat v (List.drop (pat.length - 1) rest)
    else c :: replaceAllL pat v rest
termination_by s => s.length
decreasing_by
  · simp only [List.length_cons]
    have := List.length_drop (pat.length - 1) rest
    omega
  · simp only [List.length_cons]; omega

def splitOnL (pat : List Char) : List Char → List (List Char)
  | [] => [[]]
  | c :: rest =>
    if pat.isPrefixOf (c :: rest)
    then [] :: splitOnL pat (List.drop (pat.length - 1) rest)
    else match splitOnL pat rest with
      | chunk :: more => (c :: chunk) :: more
      | [] => [[c]]
termination_by s => s.length
decreasing_by
  · simp only [List.length_cons]
    have := List.length_drop (pat.length - 1) rest
    omega
  · simp only [List.length_cons]; omega

/-- Join chunks with a separator (the inverse of `splitOnL`). -/
def joinSep (sep : List Char) : List (List Char) → List Char
  | [] => []
  | [x] => x
  | x :: y :: xs => x ++ sep ++ joinSep sep (y :: xs)

/-- The Go field-substitution helper: sequential `ReplaceAll` of each
`{name}` pattern, in map order. -/
def substitutePlaceholders (s : List Char) (iteratorValues : List (List Char × List Char)) : List Char :=
  iteratorValues.foldl (fun result nv => replaceAllL (braced nv.1) nv.2 result) s

/-- `extractPlaceholderNames` returns the capture group of every leftmost
non-overlapping match of `iteratorPattern`. -/
def extractPlaceholderNames (s : List Char) : List (List Char) := scanTokens s

/-! ## Iterator engine (`Iterator`, `CombinationGenerator`, `ForEach`)

From the iterator source file: `Iterator` carries a name, a count and a
lazy `index → string` generator closure.  `ValueAt` panics outside
`[0, count)` in Go; the embedding is total and only applied in range. -/
structure Iterator where
  name : String
  generator : Nat → String
  count : Nat

def NewRangeIterator (name : String) (start end_ : Int) : Iterator :=
  if end_ < start then
    { name := name, count := 0, generator := fun _ => "" }
  else
    { name := name, count := (end_ - start + 1).toNat,
      generator := fun index => toString (start + (index : Int)) }

def NewListIterator (name : String) (values : List String) : Iterator :=
  { name := name, count := values.length, generator := fun index => values.getD index "" }

def Iterator.Len (it : Iterator) : Nat := it.count

def Iterator.ValueAt (it : Iterator) (index : Nat) : String := it.generator index

/-- `CombinationGenerator`: lazy Cartesian-product enumeration.  The
constructor gives total `0` for an empty iterator list, otherwise the
product of the lengths. -/
structure CombinationGenerator where
  iterators : List Iterator
  total : Nat

def NewCombinationGenerator (its : List Iterator) : CombinationGenerator :=
  if its.isEmpty then { iterators := its, total := 0 }
  else { iterators := its, total := its.foldl (fun acc it => acc * it.count) 1 }

/-- The body of `Generate`: positional decoding with the running `repeat`
radix, writing each iterator's value into the result map. -/
def generateLoop : List Iterator → Nat → Nat → List (String × String) → List (String × String)
  | [], _, _, acc => acc
  | it :: rest, index, rep, acc =>
    generateLoop rest index (rep * it.count)
      (mapSet acc it.name (it.generator ((index / rep) % it.count)))

def CombinationGenerator.Generate (g : CombinationGenerator) (index : Nat) :
    List (String × String) :=
  generateLoop g.iterators index 1 []

/-- `ForEach` visits indices `0, 1, …, total-1` in order, threading the
callback's closure state `σ`, and stops at the first callback error. -/
def forEachFrom (g : CombinationGenerator) {σ ε : Type}
    (fn : List (String × String) → σ → Except ε σ) : Nat → σ → Except ε σ
  | i, st =>
    if _h : i < g.total then
      match fn (g.Generate i) st with
      | .error e => .error e
      | .ok st2 => forEachFrom g fn (i + 1) st2
    else .ok st
termination_by i _ => g.total - i

def CombinationGenerator.ForEach (g : CombinationGenerator) {σ ε : Type}
    (fn : List (String × String) → σ → Except ε σ) (st : σ) : Except ε σ :=
  forEachFrom g fn 0 st

/-! ## Iterator registry and the generic expansion driver (`expand`) -/
structure IteratorRegistry where
  iterators : List (String × Iterator)

def NewIteratorRegistry : IteratorRegistry := ⟨[]⟩

def IteratorRegistry.Register (r : IteratorRegistry) (it : Iterator) :
    Except String IteratorRegistry :=
  match lookupA r.iterators it.name with
  | some _ => .error ("iterator \"" ++ it.name ++ "\" already registered")
  | none => .ok ⟨r.iterators ++ [(it.name, it)]⟩

def IteratorRegistry.Get (r : IteratorRegistry) (name : String) : Option Iterator :=
  lookupA r.iterators name

def IteratorRegistry.GetIterators (r : IteratorRegistry) :
    List String → Except String (List Iterator)
  | [] => .ok []
  | name :: rest =>
    match r.Get name with
    | none => .error ("iterator \"" ++ name ++ "\" not defined")
    | some it =>
      match r.GetIterators rest with
      | .error e => .error e
      | .ok its => .ok (it :: its)

/-- Raw iterator definition (`RawIterator`).  A nil Go slice and an empty
slice are both embedded as `[]`. -/
structure RawIterator where
  name : String
  type : String
  start : Option Int
  end_ : Option Int
  values : List String
deriving Repr, DecidableEq

def buildIteratorRegistryLoop (registry : IteratorRegistry) :
    List RawIterator → Except String IteratorRegistry
  | [] => .ok registry
  | raw :: rest =>
    let itE : Except String Iterator :=
      if raw.type = "range" then
        match raw.start with
        | none => .error ("iterator \"" ++ raw.name ++ "\": start required for range type")
        | some s =>
          match raw.end_ with
          | none => .error ("iterator \"" ++ raw.name ++ "\": end required for range type")
          | some e => .ok (NewRangeIterator raw.name s e)
      else if raw.type = "list" then
        if raw.values.isEmpty then
          .error ("iterator \"" ++ raw.name ++ "\": values required for list type")
        else .ok (NewListIterator raw.name raw.values)
      else
        .error ("iterator \"" ++ raw.name ++ "\": unknown type \"" ++ raw.type
          ++ "\" (must be range or list)")
    match itE with
    | .error e => .error e
    | .ok it =>
      match registry.Register it with
      | .error e => .error e
      | .ok registry2 => buildIteratorRegistryLoop registry2 rest

def buildIteratorRegistry (rawIterators : List RawIterator) : Except String IteratorRegistry :=
  buildIteratorRegistryLoop NewIteratorRegistry rawIterators

/-- Error prefix `"%s at index %d: "` used by the expansion driver. -/
def idxErr (entityType : String) (i : Nat) (msg : String) : String :=
  entityType ++ " at index " ++ toString i ++ ": " ++ msg

/-- The generic expansion loop of `expand`: accumulates into `expanded`,
keeping placeholder-free entities as-is and appending one substituted
clone per combination via `ForEach`. -/
def expandLoop {E : Type} (fp : E → List String)
    (sub : List (String × String) → E → E) (reg : IteratorRegistry) (entityType : String) :
    List E → Nat → List E → Except String (List E)
  | [], _, acc => .ok acc
  | item :: rest, i, acc =>
    if fp item = [] then expandLoop fp sub reg entityType rest (i + 1) (acc ++ [item])
    else
      match reg.GetIterators (fp item) with
      | .error e => .error (idxErr entityType i e)
      | .ok its =>
        if (NewCombinationGenerator its).total = 0 then
          .error (idxErr entityType i "iterator combination produces zero results")
        else
          match (NewCombinationGenerator its).ForEach
              (fun combo acc2 => (.ok (acc2 ++ [sub combo item]) : Except String (List E))) acc with
          | .error e => .error (idxErr entityType i e)
          | .ok acc2 => expandLoop fp sub reg entityType rest (i + 1) acc2

/-- `expand` from the source: nil registry returns the items unchanged. -/
def expand {E : Type} (fp : E → List String) (sub : List (String × String) → E → E)
    (items : List E) (registry : Option IteratorRegistry) (entityType : String) :
    Except String (List E) :=
  match registry with
  | none => .ok items
  | some reg => expandLoop fp sub reg entityType items 0 []

/-- The expansion behavior in the words of the spec: each entity with no
placeholders stays as-is; otherwise its iterators are fetched (undefined
names fail), a zero combination total fails, and exactly `Total`
substituted clones are emitted in combination-index order; the expanded
chunks are concatenated in declaration order. -/
def expandSpec {E : Type} (fp : E → List String) (sub : List (String × String) → E → E)
    (reg : IteratorRegistry) (entityType : String) : List E → Nat → Except String (List E)
  | [], _ => .ok []
  | item :: rest, i =>
    let chunk : Except String (List E) :=
      if fp item = [] then .ok [item]
      else
        match reg.GetIterators (fp item) with
        | .error e => .error (idxErr entityType i e)
        | .ok its =>
          if (NewCombinationGenerator its).total = 0 then
            .error (idxErr entityType i "iterator combination produces zero results")
          else .ok ((List.range (NewCombinationGenerator its).total).map
            (fun k => sub ((NewCombinationGenerator its).Generate k) item))
    match chunk with
    | .error e => .error e
    | .ok c =>
      match expandSpec fp sub reg entityType rest (i + 1) with
      | .error e => .error e
      | .ok cs => .ok (c ++ cs)

/-! ## Configuration model (resolved and raw)

`time.Duration` is embedded as `Int` (nanoseconds); Go `nil` pointers for
optional override fields become `Option`; Go maps keyed by name become
insertion-ordered association lists. -/
structure ClockConfig where
  type : String
  interval : Int
deriving Repr, DecidableEq

structure SourceConfig where
  type : String
  clock : ClockConfig
  clockRef : Option String
  min : Int
  max : Int
deriving Repr, DecidableEq

structure TransformConfig where
  type : String
deriving Repr, DecidableEq

structure ResetConfig where
  type : String
  value : Int
deriving Repr, DecidableEq

structure ValueConfig where
  source : SourceConfig
  sourceRef : Option String
  transforms : List TransformConfig
  reset : ResetConfig
deriving Repr, DecidableEq

structure MetricConfig where
  prometheusName : String
  otelName : String
  type : String
  description : String
  value : ValueConfig
  attributes : Option (List (String × String))
deriving Repr, DecidableEq

def MetricTypeCounter : String := "counter"

def MetricTypeGauge : String := "gauge"

/-- The Go zero value `SourceConfig{}`. -/
def SourceConfig.zero : SourceConfig := ⟨"", ⟨"", 0⟩, none, 0, 0⟩

structure RawClockReference where
  instance_ : String
  template : String
  type : Option String
  interval : Int
deriving Repr, DecidableEq

structure RawSourceReference where
  instance_ : String
  template : String
  type : Option String
  clock : Option RawClockReference
  min : Option Int
  max : Option Int
deriving Repr, DecidableEq

structure RawValueReference where
  instance_ : String
  template : String
  source : Option RawSourceReference
  transforms : List TransformConfig
  reset : ResetConfig
deriving Repr, DecidableEq

structure RawMetricNameConfig where
  simple : String
  prometheus : String
  otel : String
deriving Repr, DecidableEq

def RawMetricNameConfig.GetPrometheusName (m : RawMetricNameConfig) : String :=
  if m.simple ≠ "" then m.simple else m.prometheus

def RawMetricNameConfig.GetOTELName (m : RawMetricNameConfig) : String :=
  if m.simple ≠ "" then m.simple else m.otel

structure RawMetricConfig where
  name : RawMetricNameConfig
  type : String
  description : String
  value : RawValueReference
  attributes : Option (List (String × String))
deriving Repr, DecidableEq

structure RawTemplates where
  clocks : List (String × RawClockReference)
  sources : List (String × RawSourceReference)
  values : List (String × RawValueReference)
deriving Repr, DecidableEq

structure RawInstances where
  clocks : List (String × RawClockReference)
  sources : List (String × RawSourceReference)
  values : List (String × RawValueReference)
deriving Repr, DecidableEq

structure RawPrometheusExportConfig where
  enabled : Bool
  port : Int
  path : String
deriving Repr, DecidableEq

structure IntervalConfig where
  read : Int
  push : Int
deriving Repr, DecidableEq

structure RawOTELExportConfig where
  enabled : Bool
  transport : String
  host : String
  port : Int
  interval : IntervalConfig
  resource : Option (List (String × String))
  headers : Option (List (String × String))
deriving Repr, DecidableEq

structure RawExportConfig where
  prometheus : Option RawPrometheusExportConfig
  otel : Option RawOTELExportConfig
deriving Repr, DecidableEq

structure RawInternalMetricsConfig where
  enabled : Bool
  format : String
deriving Repr, DecidableEq

structure RawSettingsConfig where
  seed : Option Nat
  internalMetrics : RawInternalMetricsConfig
deriving Repr, DecidableEq

structure RawConfig where
  iterators : List RawIterator
  templates : RawTemplates
  instances : RawInstances
  metrics : List RawMetricConfig
  export_ : RawExportConfig
  settings : RawSettingsConfig
deriving Repr, DecidableEq

structure PrometheusExportConfig where
  enabled : Bool
  port : Int
  path : String
deriving Repr, DecidableEq

structure OTELExportConfig where
  enabled : Bool
  transport : String
  host : String
  port : Int
  interval : IntervalConfig
  resource : Option (List (String × String))
  headers : Option (List (String × String))
deriving Repr, DecidableEq

structure ExportConfig where
  prometheus : Option PrometheusExportConfig
  otel : Option OTELExportConfig
deriving Repr, DecidableEq

structure InternalMetricsConfig where
  enabled : Bool
  format : String
deriving Repr, DecidableEq

structure SettingsConfig where
  seed : Option Nat
  internalMetrics : InternalMetricsConfig
deriving Repr, DecidableEq

structure InstanceRegistry where
  clocks : List (String × ClockConfig)
  sources : List (String × SourceConfig)
  values : List (String × ValueConfig)
deriving Repr, DecidableEq

structure Config where
  instances : InstanceRegistry
  metrics : List MetricConfig
  export_ : ExportConfig
  settings : SettingsConfig
deriving Repr, DecidableEq

/-! ## Resolver state, context stack and reference resolution -/
structure Resolver where
  registeredNames : List (String × String)
  templateClocks : List (String × ClockConfig)
  templateSources : List (String × SourceConfig)
  templateValues : List (String × ValueConfig)
  templateMetrics : List (String × MetricConfig)
  instanceClocks : List (String × ClockConfig)
  instanceSources : List (String × SourceConfig)
  instanceValues : List (String × ValueConfig)

def newResolver : Resolver := ⟨[], [], [], [], [], [], [], []⟩

def getStringValue (s : Option String) : String := s.getD ""

/-- `resolveContext.push`: appends an `in <component> "<name>"` frame. -/
def ctxPush (ctx : List String) (component name : String) : List String :=
  ctx ++ [component ++ " \"" ++ name ++ "\""]

/-- `resolveContext.error`: the message followed by the frames deepest
first. -/
def ctxError (ctx : List String) (msg : String) : String :=
  msg ++ String.join (ctx.reverse.map (fun f => "\n  in " ++ f))

/-- `registerName`: one global namespace across all entity kinds; a
collision error names the kind of the original registration. -/
def Resolver.registerName (r : Resolver) (name entityType : String) : Except String Resolver :=
  match lookupA r.registeredNames name with
  | some existingType =>
    .error ("name \"" ++ name ++ "\" already used by " ++ existingType
      ++ ", cannot reuse for " ++ entityType)
  | none => .ok { r with registeredNames := r.registeredNames ++ [(name, entityType)] }

def Resolver.resolveClockReference (r : Resolver) (raw : RawClockReference)
    (ctx : List String) : Except String (ClockConfig × Option String) :=
  if raw.instance_ ≠ "" then
    match lookupA r.instanceClocks raw.instance_ with
    | none => .error (ctxError ctx ("clock instance \"" ++ raw.instance_ ++ "\" not found"))
    | some inst =>
      if raw.template ≠ "" ∨ raw.type ≠ none ∨ raw.interval ≠ 0 then
        .error (ctxError ctx "cannot override instance clock")
      else .ok (inst, some raw.instance_)
  else if raw.template ≠ "" then
    match lookupA r.templateClocks raw.template with
    | none => .error (ctxError ctx ("clock template \"" ++ raw.template ++ "\" not found"))
    | some tpl =>
      let r1 := match raw.type with
        | some t => { tpl with type := t }
        | none => tpl
      let r2 := if raw.interval ≠ 0 then { r1 with interval := raw.interval } else r1
      .ok (r2, none)
  else
    match raw.type with
    | some t =>
      if t = "" then .error (ctxError ctx "clock type required")
      else if raw.interval = 0 then .error (ctxError ctx "clock interval required")
      else .ok (⟨t, raw.interval⟩, none)
    | none =>
      .error (ctxError ctx "clock must reference instance, template, or provide inline definition")

def Resolver.resolveSourceReference (r : Resolver) (raw : RawSourceReference)
    (ctx : List String) : Except String (SourceConfig × Option String) :=
  if raw.instance_ ≠ "" then
    match lookupA r.instanceSources raw.instance_ with
    | none => .error (ctxError ctx ("source instance \"" ++ raw.instance_ ++ "\" not found"))
    | some inst =>
      if raw.template ≠ "" ∨ raw.type ≠ none ∨ raw.clock ≠ none ∨ raw.min ≠ none ∨ raw.max ≠ none then
        .error (ctxError ctx "cannot override instance source")
      else .ok (inst, some raw.instance_)
  else if raw.template ≠ "" then
    match lookupA r.templateSources raw.template with
    | none => .error (ctxError ctx ("source template \"" ++ raw.template ++ "\" not found"))
    | some tpl =>
      let r1 := match raw.type with
        | some t => { tpl with type := t }
        | none => tpl
      match raw.clock with
      | some rc =>
        match r.resolveClockReference rc ctx with
        | .error e => .error e
        | .ok (clk, clockRef) =>
          let r2 := { r1 with clock := clk, clockRef := clockRef }
          let r3 := match raw.min with | some m => { r2 with min := m } | none => r2
          let r4 := match raw.max with | some m => { r3 with max := m } | none => r3
          .ok (r4, none)
      | none =>
        let r3 := match raw.min with | some m => { r1 with min := m } | none => r1
        let r4 := match raw.max with | some m => { r3 with max := m } | none => r3
        .ok (r4, none)
  else
    match raw.type with
    | some t =>
      let step1 : Except String SourceConfig :=
        match raw.clock with
        | some rc =>
          match r.resolveClockReference rc ctx with
          | .error e => .error e
          | .ok (clk, clockRef) =>
            .ok { SourceConfig.zero with type := t, clock := clk, clockRef := clockRef }
        | none => .ok { SourceConfig.zero with type := t }
      match step1 with
      | .error e => .error e
      | .ok sc =>
        let r3 := match raw.min with | some m => { sc with min := m } | none => sc
        let r4 := match raw.max with | some m => { r3 with max := m } | none => r3
        if r4.type = "" then .error (ctxError ctx "source type required")
        else .ok (r4, none)
    | none =>
      .error (ctxError ctx "source must reference instance, template, or provide inline definition")

def Resolver.resolveValue (r : Resolver) (raw : RawValueReference) (ctx : List String) :
    Except String ValueConfig :=
  if raw.instance_ ≠ "" then
    match lookupA r.instanceValues raw.instance_ with
    | none => .error (ctxError ctx ("value instance \"" ++ raw.instance_ ++ "\" not found"))
    | some inst =>
      if raw.template ≠ "" ∨ raw.source ≠ none ∨ raw.transforms ≠ [] ∨ raw.reset.type ≠ "" then
        .error (ctxError ctx "cannot override instance value")
      else .ok inst
  else if raw.template ≠ "" then
    match lookupA r.templateValues raw.template with
    | none => .error (ctxError ctx ("value template \"" ++ raw.template ++ "\" not found"))
    | some tpl =>
      let step1 : Except String ValueConfig :=
        match raw.source with
        | some rs =>
          match r.resolveSourceReference rs ctx with
          | .error e => .error e
          | .ok (src, sourceRef) => .ok { tpl with source := src, sourceRef := sourceRef }
        | none => .ok tpl
      match step1 with
      | .error e => .error e
      | .ok v1 =>
        let v2 := if raw.transforms ≠ [] then { v1 with transforms := raw.transforms } else v1
        let v3 := if raw.reset.type ≠ "" then { v2 with reset := raw.reset } else v2
        .ok v3
  else
    match raw.source with
    | none => .error (ctxError ctx "value must reference instance, template, or provide inline source")
    | some rs =>
      match r.resolveSourceReference rs ctx with
      | .error e => .error e
      | .ok (src, sourceRef) =>
        .ok { source := src, sourceRef := sourceRef,
              transforms := raw.transforms, reset := raw.reset }

def Resolver.validateValue (_r : Resolver) (value : ValueConfig) (ctx : List String) :
    Except String Unit :=
  if value.source.type = "" then .error (ctxError ctx "source required")
  else if value.source.clock.type = "" then .error (ctxError ctx "clock required in source")
  else .ok ()

def Resolver.validateMetric (_r : Resolver) (metric : MetricConfig) (ctx : List String) :
    Except String Unit :=
  if metric.type = "" then .error (ctxError ctx "type required")
  else if metric.type ≠ MetricTypeCounter ∧ metric.type ≠ MetricTypeGauge then
    .error (ctxError ctx ("invalid type: " ++ metric.type ++ " (must be counter or gauge)"))
  else if metric.description = "" then .error (ctxError ctx "description required")
  else if metric.value.source.type = "" then .error (ctxError ctx "value source required")
  else .ok ()

/-! ## Resolution phases -/
def resolveTemplateClocksLoop (r : Resolver) :
    List (String × RawClockReference) → Except String Resolver
  | [] => .ok r
  | (name, raw) :: rest =>
    match r.registerName name "template clock" with
    | .error e => .error e
    | .ok r1 =>
      let ctx := ctxPush [] "clock template" name
      let resolved : ClockConfig := ⟨getStringValue raw.type, raw.interval⟩
      if resolved.type = "" then .error (ctxError ctx "type required")
      else if resolved.interval = 0 then .error (ctxError ctx "interval required")
      else resolveTemplateClocksLoop
        { r1 with templateClocks := r1.templateClocks ++ [(name, resolved)] } rest

def resolveInstanceClocksLoop (r : Resolver) :
    List (String × RawClockReference) → Except String Resolver
  | [] => .ok r
  | (name, raw) :: rest =>
    match r.registerName name "instance clock" with
    | .error e => .error e
    | .ok r1 =>
      let ctx := ctxPush [] "clock instance" name
      let resolved : ClockConfig := ⟨getStringValue raw.type, raw.interval⟩
      if resolved.type = "" then .error (ctxError ctx "type required")
      else if resolved.interval = 0 then .error (ctxError ctx "interval required")
      else resolveInstanceClocksLoop
        { r1 with instanceClocks := r1.instanceClocks ++ [(name, resolved)] } rest

def resolveTemplateSourcesLoop (r : Resolver) :
    List (String × RawSourceReference) → Except String Resolver
  | [] => .ok r
  | (name, raw) :: rest =>
    match r.registerName name "template source" with
    | .error e => .error e
    | .ok r1 =>
      let ctx := ctxPush [] "source template" name
      let step1 : Except String SourceConfig :=
        match raw.clock with
        | some rc =>
          match r1.resolveClockReference rc ctx with
          | .error e => .error e
          | .ok (clk, clockRef) =>
            .ok { SourceConfig.zero with
              type := getStringValue raw.type, clock := clk, clockRef := clockRef }
        | none => .ok { SourceConfig.zero with type := getStringValue raw.type }
      match step1 with
      | .error e => .error e
      | .ok sc =>
        let sc2 := match raw.min with | some m => { sc with min := m } | none => sc
        let sc3 := match raw.max with | some m => { sc2 with max := m } | none => sc2
        if sc3.type = "" then .error (ctxError ctx "type required")
        else resolveTemplateSourcesLoop
          { r1 with templateSources := r1.templateSources ++ [(name, sc3)] } rest

def resolveInstanceSourcesLoop (r : Resolver) :
    List (String × RawSourceReference) → Except String Resolver
  | [] => .ok r
  | (name, raw) :: rest =>
    match r.registerName name "instance source" with
    | .error e => .error e
    | .ok r1 =>
      let ctx := ctxPush [] "source instance" name
      let step1 : Except String SourceConfig :=
        match raw.clock with
        | some rc =>
          match r1.resolveClockReference rc ctx with
          | .error e => .error e
          | .ok (clk, clockRef) =>
            .ok { SourceConfig.zero with
              type := getStringValue raw.type, clock := clk, clockRef := clockRef }
        | none => .ok { SourceConfig.zero with type := getStringValue raw.type }
      match step1 with
      | .error e => .error e
      | .ok sc =>
        let sc2 := match raw.min with | some m => { sc with min := m } | none => sc
        let sc3 := match raw.max with | some m => { sc2 with max := m } | none => sc2
        if sc3.type = "" then .error (ctxError ctx "type required")
        else resolveInstanceSourcesLoop
          { r1 with instanceSources := r1.instanceSources ++ [(name, sc3)] } rest

def resolveTemplateValuesLoop (r : Resolver) :
    List (String × RawValueReference) → Except String Resolver
  | [] => .ok r
  | (name, raw) :: rest =>
    match r.registerName name "template value" with
    | .error e => .error e
    | .ok r1 =>
      let ctx := ctxPush [] "value template" name
      let step1 : Except String ValueConfig :=
        match raw.source with
        | some rs =>
          match r1.resolveSourceReference rs ctx with
          | .error e => .error e
          | .ok (src, sourceRef) =>
            .ok { source := src, sourceRef := sourceRef,
                  transforms := raw.transforms, reset := raw.reset }
        | none =>
          .ok { source := SourceConfig.zero, sourceRef := none,
                transforms := raw.transforms, reset := raw.reset }
      match step1 with
      | .error e => .error e
      | .ok v =>
        match r1.validateValue v ctx with
        | .error e => .error e
        | .ok _ => resolveTemplateValuesLoop
            { r1 with templateValues := r1.templateValues ++ [(name, v)] } rest

def resolveInstanceValuesLoop (r : Resolver) :
    List (String × RawValueReference) → Except String Resolver
  | [] => .ok r
  | (name, raw) :: rest =>
    match r.registerName name "instance value" with
    | .error e => .error e
    | .ok r1 =>
      let ctx := ctxPush [] "value instance" name
      let step1 : Except String ValueConfig :=
        match raw.source with
        | some rs =>
          match r1.resolveSourceReference rs ctx with
          | .error e => .error e
          | .ok (src, sourceRef) =>
            .ok { source := src, sourceRef := sourceRef,
                  transforms := raw.transforms, reset := raw.reset }
        | none =>
          .ok { source := SourceConfig.zero, sourceRef := none,
                transforms := raw.transforms, reset := raw.reset }
      match step1 with
      | .error e => .error e
      | .ok v =>
        match r1.validateValue v ctx with
        | .error e => .error e
        | .ok _ => resolveInstanceValuesLoop
            { r1 with instanceValues := r1.instanceValues ++ [(name, v)] } rest

/-- `resolveTemplateMetrics` is a placeholder in the current source:
template metrics are not used. -/
def Resolver.resolveTemplateMetrics (r : Resolver) : Except String Resolver := .ok r

def Resolver.resolveMetric (r : Resolver) (raw : RawMetricConfig) (ctx : List String) :
    Except String MetricConfig :=
  match r.resolveValue raw.value ctx with
  | .error e => .error e
  | .ok value =>
    let result : MetricConfig :=
      { prometheusName := raw.name.GetPrometheusName
        otelName := raw.name.GetOTELName
        type := raw.type
        description := raw.description
        value := value
        attributes := raw.attributes }
    match r.validateMetric result ctx with
    | .error e => .error e
    | .ok _ => .ok result

def resolveMetricsLoop (r : Resolver) : List RawMetricConfig → Except String (List MetricConfig)
  | [] => .ok []
  | raw :: rest =>
    let ctx := ctxPush [] "metric" raw.name.GetPrometheusName
    match r.resolveMetric raw ctx with
    | .error e => .error e
    | .ok metric =>
      match resolveMetricsLoop r rest with
      | .error e => .error e
      | .ok ms => .ok (metric :: ms)

/-! ## Export and settings resolution -/
def PrometheusExportConfig.Validate (c : PrometheusExportConfig) :
    Except String PrometheusExportConfig :=
  if ¬ c.enabled then .ok c
  else
    let c1 := if c.port = 0 then { c with port := 9090 } else c
    let c2 := if c1.path = "" then { c1 with path := "/metrics" } else c1
    if c2.port ≤ 0 ∨ c2.port > 65535 then
      .error ("invalid prometheus port: " ++ toString c2.port)
    else .ok c2

def OTELExportConfig.Validate (c : OTELExportConfig) : Except String OTELExportConfig :=
  if ¬ c.enabled then .ok c
  else
    let c1 := if c.transport = "" then { c with transport := "grpc" } else c
    if c1.transport ≠ "grpc" ∧ c1.transport ≠ "http" then
      .error ("invalid transport: " ++ c1.transport ++ " (must be grpc or http)")
    else
      let c2 := if c1.host = "" then { c1 with host := "localhost" } else c1
      let c3 := if c2.port = 0 then
          (if c2.transport = "grpc" then { c2 with port := 4317 } else { c2 with port := 4318 })
        else c2
      let c4 := if c3.interval.read = 0 then
          { c3 with interval := { c3.interval with read := 1000000000 } } else c3
      let c5 := if c4.interval.push = 0 then
          { c4 with interval := { c4.interval with push := 1000000000 } } else c4
      let res0 := c5.resource.getD []
      let res1 := if lookupA res0 "service.name" = none then
          res0 ++ [("service.name", "obsbox")] else res0
      let res2 := if lookupA res1 "service.version" = none then
          res1 ++ [("service.version", "dev")] else res1
      .ok { c5 with resource := some res2 }

def promEnabled (e : ExportConfig) : Bool :=
  match e.prometheus with
  | some p => p.enabled
  | none => false

def otelEnabled (e : ExportConfig) : Bool :=
  match e.otel with
  | some o => o.enabled
  | none => false

def ExportConfig.Validate (e : ExportConfig) : Except String ExportConfig :=
  if e.prometheus = none ∧ e.otel = none then
    .ok { e with prometheus := some ⟨true, 9090, "/metrics"⟩ }
  else
    let step1 : Except String ExportConfig :=
      match e.prometheus with
      | some p =>
        if p.enabled then
          match p.Validate with
          | .error er => .error er
          | .ok p2 => .ok { e with prometheus := some p2 }
        else .ok e
      | none => .ok e
    match step1 with
    | .error er => .error er
    | .ok e2 =>
      let step2 : Except String ExportConfig :=
        match e2.otel with
        | some o =>
          if o.enabled then
            match o.Validate with
            | .error er => .error er
            | .ok o2 => .ok { e2 with otel := some o2 }
          else .ok e2
        | none => .ok e2
      match step2 with
      | .error er => .error er
      | .ok e3 =>
        if ¬ promEnabled e3 ∧ ¬ otelEnabled e3 then
          .error "at least one exporter must be enabled"
        else if promEnabled e3 ∧ otelEnabled e3 then
          .error "only one exporter can be enabled at a time (prometheus or otel)"
        else .ok e3

def resolveExport (raw : RawExportConfig) : Except String ExportConfig :=
  let result : ExportConfig :=
    { prometheus := raw.prometheus.map (fun p => ⟨p.enabled, p.port, p.path⟩)
      otel := raw.otel.map (fun o =>
        ⟨o.enabled, o.transport, o.host, o.port, ⟨o.interval.read, o.interval.push⟩,
         o.resource, o.headers⟩) }
  result.Validate

def SettingsConfig.Validate (s : SettingsConfig) : Except String SettingsConfig :=
  let s1 := if s.internalMetrics.format = "" then
      { s with internalMetrics := { s.internalMetrics with format := "native" } } else s
  if s1.internalMetrics.format = "native" ∨ s1.internalMetrics.format = "underscore"
      ∨ s1.internalMetrics.format = "dot" then .ok s1
  else .error ("invalid naming format: " ++ s1.internalMetrics.format
    ++ " (must be native, underscore, or dot)")

def resolveSettings (raw : RawSettingsConfig) : Except String SettingsConfig :=
  SettingsConfig.Validate
    { seed := raw.seed
      internalMetrics := { enabled := raw.internalMetrics.enabled
                           format := raw.internalMetrics.format } }

/-! ## Iterator expansion phase of `Resolve`

The reflective helpers `findIteratorsInStruct`/`substituteIterators` are
not part of the source snapshot (only their callers are); the per-type
definitions below are modelled from the spec (sections 4.1 and 9): they
collect the distinct iterator names referenced in the entity's string
fields and substitute placeholders in those fields. -/
def dedupFirst : List String → List String
  | [] => []
  | x :: xs => x :: dedupFirst (xs.filter (fun y => y ≠ x))
termination_by l => l.length
decreasing_by
  simp only [List.length_cons]
  exact Nat.lt_succ_of_le (List.length_filter_le _ _)

def extractStr (s : String) : List String :=
  (scanTokens s.toList).map (fun cs => String.mk cs)

def substStr (s : String) (combo : List (String × String)) : String :=
  String.mk (substitutePlaceholders s.toList (combo.map (fun p => (p.1.toList, p.2.toList))))

/-- Modelled from the spec: `findIteratorsInStruct` for a named clock
entry scans its string fields (entry name, instance, template, type). -/
def findIteratorsClockEntry (e : String × RawClockReference) : List String :=
  dedupFirst (extractStr e.1 ++ extractStr e.2.instance_ ++ extractStr e.2.template
    ++ extractStr (getStringValue e.2.type))

/-- Modelled from the spec: `substituteIterators` for a named clock
entry. -/
def substituteClockEntry (combo : List (String × String)) (e : String × RawClockReference) :
    String × RawClockReference :=
  (substStr e.1 combo,
   { e.2 with
      instance_ := substStr e.2.instance_ combo
      template := substStr e.2.template combo
      type := e.2.type.map (fun t => substStr t combo) })

/-- Modelled from the spec: `findIteratorsInStruct` for a named source
entry (including the nested clock reference's string fields). -/
def findIteratorsSourceEntry (e : String × RawSourceReference) : List String :=
  dedupFirst (extractStr e.1 ++ extractStr e.2.instance_ ++ extractStr e.2.template
    ++ extractStr (getStringValue e.2.type)
    ++ (match e.2.clock with
        | some c => extractStr c.instance_ ++ extractStr c.template
            ++ extractStr (getStringValue c.type)
        | none => []))

/-- Modelled from the spec: `substituteIterators` for a named source
entry. -/
def substituteSourceEntry (combo : List (String × String)) (e : String × RawSourceReference) :
    String × RawSourceReference :=
  (substStr e.1 combo,
   { e.2 with
      instance_ := substStr e.2.instance_ combo
      template := substStr e.2.template combo
      type := e.2.type.map (fun t => substStr t combo)
      clock := e.2.clock.map (fun c =>
        { c with
            instance_ := substStr c.instance_ combo
            template := substStr c.template combo
            type := c.type.map (fun t => substStr t combo) }) })

def expandClocks (clocks : List (String × RawClockReference)) (registry : IteratorRegistry) :
    Except String (List (String × RawClockReference)) :=
  expandLoop findIteratorsClockEntry substituteClockEntry registry "clock" clocks 0 []

def expandSources (sources : List (String × RawSourceReference)) (registry : IteratorRegistry) :
    Except String (List (String × RawSourceReference)) :=
  expandLoop findIteratorsSourceEntry substituteSourceEntry registry "source" sources 0 []

/-- Phase 0 of `Resolve` (`expandIterators`): no-op without iterators;
otherwise builds the registry, expands template/instance clocks and
sources, and clears the consumed iterators. -/
def expandIterators (raw : RawConfig) : Except String RawConfig :=
  if raw.iterators = [] then .ok raw
  else
    match buildIteratorRegistry raw.iterators with
    | .error e => .error ("failed to build iterator registry: " ++ e)
    | .ok registry =>
      match expandClocks raw.templates.clocks registry with
      | .error e => .error ("failed to expand template clocks: " ++ e)
      | .ok tc =>
        match expandClocks raw.instances.clocks registry with
        | .error e => .error ("failed to expand instance clocks: " ++ e)
        | .ok ic =>
          match expandSources raw.templates.sources registry with
          | .error e => .error ("failed to expand template sources: " ++ e)
          | .ok ts =>
            match expandSources raw.instances.sources registry with
            | .error e => .error ("failed to expand instance sources: " ++ e)
            | .ok isrc =>
              .ok { raw with
                iterators := []
                templates := { raw.templates with clocks := tc, sources := ts }
                instances := { raw.instances with clocks := ic, sources := isrc } }

/-! ## `Resolve`: the full resolution pipeline in its fixed phase order -/
def buildConfig (resolver : Resolver) (metrics : List MetricConfig)
    (export2 : ExportConfig) (settings : SettingsConfig) : Config :=
  { instances := ⟨resolver.instanceClocks, resolver.instanceSources, resolver.instanceValues⟩
    metrics := metrics
    export_ := export2
    settings := settings }

/-- Phases 0–3 of `Resolve`, returning the resolver state and the resolved
metrics (used to state invariants about the resolver's registries). -/
def runResolve (raw : RawConfig) : Except String (RawConfig × Resolver × List MetricConfig) :=
  match expandIterators raw with
  | .error e => .error e
  | .ok raw2 =>
    match resolveTemplateClocksLoop newResolver raw2.templates.clocks with
    | .error e => .error e
    | .ok r1 =>
      match resolveInstanceClocksLoop r1 raw2.instances.clocks with
      | .error e => .error e
      | .ok r2 =>
        match resolveTemplateSourcesLoop r2 raw2.templates.sources with
        | .error e => .error e
        | .ok r3 =>
          match resolveInstanceSourcesLoop r3 raw2.instances.sources with
          | .error e => .error e
          | .ok r4 =>
            match resolveTemplateValuesLoop r4 raw2.templates.values with
            | .error e => .error e
            | .ok r5 =>
              match resolveInstanceValuesLoop r5 raw2.instances.values with
              | .error e => .error e
              | .ok r6 =>
                match r6.resolveTemplateMetrics with
                | .error e => .error e
                | .ok r7 =>
                  match resolveMetricsLoop r7 raw2.metrics with
                  | .error e => .error e
                  | .ok metrics => .ok (raw2, r7, metrics)

/-- `Resolve`: iterator expansion, then clocks (templates, instances), then
sources, then values, then metrics, then export, then settings, then the
final config assembly (templates discarded, instances kept). -/
def Resolve (raw : RawConfig) : Except String Config :=
  match runResolve raw with
  | .error e => .error e
  | .ok (raw2, resolver, metrics) =>
    match resolveExport raw2.export_ with
    | .error e => .error e
    | .ok export2 =>
      match resolveSettings raw2.settings with
      | .error e => .error e
      | .ok settings => .ok (buildConfig resolver metrics export2 settings)

/-- A small concrete resolver state used by witnesses: one registered
instance and one registered template of each kind. -/
def witnessResolver : Resolver :=
  { newResolver with
      instanceClocks := [("c", ⟨"periodic", 5⟩)]
      instanceSources := [("s", ⟨"random_int", ⟨"periodic", 5⟩, some "c", 0, 10⟩)]
      instanceValues := [("v", ⟨⟨"random_int", ⟨"periodic", 5⟩, some "c", 0, 10⟩, some "s",
        [⟨"accumulate"⟩], ⟨"", 0⟩⟩)]
      templateClocks := [("tc", ⟨"periodic", 7⟩)]
      templateSources := [("ts", ⟨"random_int", ⟨"periodic", 7⟩, none, 1, 9⟩)]
      templateValues := [("tv", ⟨⟨"random_int", ⟨"periodic", 7⟩, none, 1, 9⟩, none,
        [⟨"accumulate"⟩], ⟨"on_read", 3⟩⟩)] }

/-- A configuration family with one instance clock `c` and one template
source `s` whose clock references `instance: c`. -/
def mkC2Raw (c s t st : String) (i : Int) : RawConfig :=
  { iterators := []
    templates := ⟨[], [(s, ⟨"", "", some st, some ⟨c, "", none, 0⟩, none, none⟩)], []⟩
    instances := ⟨[(c, ⟨"", "", some t, i⟩)], [], []⟩
    metrics := []
    export_ := ⟨none, none⟩
    settings := ⟨none, ⟨false, ""⟩⟩ }

/-- The resolver state reached on `mkC2Raw`. -/
def mkC2Resolver (c s t st : String) (i : Int) : Resolver :=
  { registeredNames := [(c, "instance clock"), (s, "template source")]
    templateClocks := []
    templateSources := [(s, ⟨st, ⟨t, i⟩, some c, 0, 0⟩)]
    templateValues := []
    templateMetrics := []
    instanceClocks := [(c, ⟨t, i⟩)]
    instanceSources := []
    instanceValues := [] }

/-! ## Lifecycle manager (`generator.New`)

Runtime object identity is modelled by allocation counters: each created
simv object receives a fresh id (`nextId`).  The constructors
`simulation.CreateClock` / `CreateSource` / `CreateValue` are external to
the source snapshot; only the identity of the object they return matters
here, so creation is modelled as allocation of a fresh id.  The fields
`metricClocks` / `metricSources` record, per metric and in metric order,
the clock and source objects bound to that metric (the loop locals `clk`
and `src` of `New`), alongside `metricValues` which the source itself
keeps. -/
structure GenState where
  nextId : Nat
  clocks : List Nat
  sources : List Nat
  values : List Nat
  clockInstances : List (String × Nat)
  sourceInstances : List (String × Nat)
  valueInstances : List (String × Nat)
  metricClocks : List Nat
  metricSources : List Nat
  metricValues : List Nat
deriving Repr, DecidableEq

/-- `getOrCreateClock`: cached clock if `ClockRef` names an already-built
instance; otherwise a new clock, cached only when `ClockRef` is set. -/
def getOrCreateClock (g : GenState) (sourceCfg : SourceConfig) : Nat × GenState :=
  match sourceCfg.clockRef with
  | some instanceName =>
    match lookupA g.clockInstances instanceName with
    | some clk => (clk, g)
    | none =>
      let clk := g.nextId
      (clk, { g with
        nextId := g.nextId + 1
        clockInstances := mapSet g.clockInstances instanceName clk
        clocks := g.clocks ++ [clk] })
  | none =>
    let clk := g.nextId
    (clk, { g with nextId := g.nextId + 1, clocks := g.clocks ++ [clk] })

/-- `getOrCreateSource`: cached source if `SourceRef` names an
already-built instance; otherwise a new source, cached only when
`SourceRef` is set. -/
def getOrCreateSource (g : GenState) (valueCfg : ValueConfig) (_clk : Nat) : Nat × GenState :=
  match valueCfg.sourceRef with
  | some instanceName =>
    match lookupA g.sourceInstances instanceName with
    | some src => (src, g)
    | none =>
      let src := g.nextId
      (src, { g with
        nextId := g.nextId + 1
        sourceInstances := mapSet g.sourceInstances instanceName src
        sources := g.sources ++ [src] })
  | none =>
    let src := g.nextId
    (src, { g with nextId := g.nextId + 1, sources := g.sources ++ [src] })

/-- `getOrCreateValue`: always creates a fresh value (value instance
sharing is not implemented in the source). -/
def getOrCreateValue (g : GenState) (_valueCfg : ValueConfig) (_src : Nat) : Nat × GenState :=
  let val := g.nextId
  (val, { g with nextId := g.nextId + 1, values := g.values ++ [val] })

/-- The clock bound to metric `m` (the loop local `clk`). -/
def cBind (g : GenState) (m : MetricConfig) : Nat :=
  (getOrCreateClock g m.value.source).1

def cState (g : GenState) (m : MetricConfig) : GenState :=
  (getOrCreateClock g m.value.source).2

/-- The source bound to metric `m` (the loop local `src`). -/
def sBind (g : GenState) (m : MetricConfig) : Nat :=
  (getOrCreateSource (cState g m) m.value (cBind g m)).1

def sState (g : GenState) (m : MetricConfig) : GenState :=
  (getOrCreateSource (cState g m) m.value (cBind g m)).2

def vBind (g : GenState) (m : MetricConfig) : Nat :=
  (getOrCreateValue (sState g m) m.value (sBind g m)).1

def vState (g : GenState) (m : MetricConfig) : GenState :=
  (getOrCreateValue (sState g m) m.value (sBind g m)).2

/-- One iteration of `New`'s loop: get or create the clock, the source and
the value for the metric, and record the metric's bindings. -/
def newStep (g : GenState) (m : MetricConfig) : GenState :=
  { vState g m with
      metricClocks := (vState g m).metricClocks ++ [cBind g m]
      metricSources := (vState g m).metricSources ++ [sBind g m]
      metricValues := (vState g m).metricValues ++ [vBind g m] }

def newLoop (g : GenState) : List MetricConfig → GenState
  | [] => g
  | m :: rest => newLoop (newStep g m) rest

def genInit : GenState := ⟨0, [], [], [], [], [], [], [], [], []⟩

/-- `generator.New` over the resolved metrics (creation failures of the
external simv constructors are outside the model). -/
def GeneratorNew (metrics : List MetricConfig) : GenState := newLoop genInit metrics

/-- Per-metric clock bindings produced from state `g` on. -/
def clockBindings (g : GenState) : List MetricConfig → List Nat
  | [] => []
  | m :: rest => cBind g m :: clockBindings (newStep g m) rest

/-- Per-metric source bindings produced from state `g` on. -/
def sourceBindings (g : GenState) : List MetricConfig → List Nat
  | [] => []
  | m :: rest => sBind g m :: sourceBindings (newStep g m) rest

/-- Well-formedness of a generator state: every cached object id was
allocated (is below the allocation counter). -/
def WfG (g : GenState) : Prop :=
  (∀ y ∈ g.clockInstances.map Prod.snd, y < g.nextId)
  ∧ (∀ y ∈ g.sourceInstances.map Prod.snd, y < g.nextId)

/-- A metric whose value references source instance "s" on clock
instance "c". -/
def mShared (pn : String) : MetricConfig :=
  { prometheusName := pn, otelName := "", type := "counter", description := "d"
    value := { source := ⟨"random_int", ⟨"periodic", 5⟩, some "c", 0, 10⟩
               sourceRef := some "s", transforms := [], reset := ⟨"", 0⟩ }
    attributes := none }

/-- A metric whose value uses an inline source on an inline clock. -/
def mInline (pn : String) : MetricConfig :=
  { prometheusName := pn, otelName := "", type := "counter", description := "d"
    value := { source := ⟨"random_int", ⟨"periodic", 5⟩, none, 0, 10⟩
               sourceRef := none, transforms := [], reset := ⟨"", 0⟩ }
    attributes := none }

def c1Metrics : List MetricConfig :=
  [mShared "m1", mShared "m2", mInline "m3", mInline "m4"]

/-! ## Theorems -/

theorem lookupA_mapSet_self {α : Type} (m : List (String × α)) (k : String) (v : α) :
    lookupA (mapSet m k v) k = some v := by
  induction m with
  | nil => simp [mapSet, lookupA]
  | cons hd tl ih =>
    obtain ⟨k0, v0⟩ := hd
    by_cases h : k0 = k
    · simp [mapSet, h, lookupA]
    · simp [mapSet, h, lookupA, ih]

theorem lookupA_mapSet_other {α : Type} (m : List (String × α)) (k : String) (v : α)
    (k0 : String) (h : k0 ≠ k) : lookupA (mapSet m k v) k0 = lookupA m k0 := by
  induction m with
  | nil =>
    simp only [mapSet, lookupA]
    rw [if_neg (fun h2 => h h2.symm)]
  | cons hd tl ih =>
    obtain ⟨k1, v1⟩ := hd
    by_cases h1 : k1 = k
    · subst h1
      simp only [mapSet, if_pos rfl, lookupA]
      rw [if_neg (fun h2 : k1 = k0 => h h2.symm), if_neg (fun h2 : k1 = k0 => h h2.symm)]
    · simp only [mapSet, if_neg h1, lookupA]
      by_cases h2 : k1 = k0
      · simp [h2]
      · simp [h2, ih]

theorem isNameStart_ne_lbrace {c : Char} (h : isNameStart c = true) : c ≠ '{' := by
  intro he; subst he; simp [isNameStart, Char.isAlpha, Char.isUpper, Char.isLower] at h

theorem isNameChar_ne_lbrace {c : Char} (h : isNameChar c = true) : c ≠ '{' := by
  intro he; subst he
  simp [isNameChar, Char.isAlphanum, Char.isAlpha, Char.isUpper, Char.isLower,
    Char.isDigit] at h

theorem isNameChar_ne_rbrace {c : Char} (h : isNameChar c = true) : c ≠ '}' := by
  intro he; subst he
  simp [isNameChar, Char.isAlphanum, Char.isAlpha, Char.isUpper, Char.isLower,
    Char.isDigit] at h

theorem isNameChar_rbrace : isNameChar '}' = false := by
  simp [isNameChar, Char.isAlphanum, Char.isAlpha, Char.isUpper, Char.isLower, Char.isDigit]

theorem occursIn_cons (c : Char) {pat s : List Char} (h : occursIn pat s) :
    occursIn pat (c :: s) := by
  obtain ⟨a, b, hab⟩ := h
  exact ⟨c :: a, b, by simp [hab]⟩

theorem occursIn_append_left (u : List Char) {pat s : List Char} (h : occursIn pat s) :
    occursIn pat (u ++ s) := by
  obtain ⟨a, b, hab⟩ := h
  exact ⟨u ++ a, b, by simp [hab]⟩

theorem takeWhile_all_bad (p : Char → Bool) (l1 l2 : List Char) (c : Char)
    (h1 : ∀ x ∈ l1, p x = true) (h2 : p c = false) :
    (l1 ++ c :: l2).takeWhile p = l1 := by
  induction l1 with
  | nil => simp [List.takeWhile, h2]
  | cons x xs ih =>
    have hx : p x = true := h1 x (by simp)
    simp only [List.cons_append, List.takeWhile, hx]
    exact congrArg (x :: ·) (ih (fun y hy => h1 y (by simp [hy])))

theorem dropWhile_all_bad (p : Char → Bool) (l1 l2 : List Char) (c : Char)
    (h1 : ∀ x ∈ l1, p x = true) (h2 : p c = false) :
    (l1 ++ c :: l2).dropWhile p = c :: l2 := by
  induction l1 with
  | nil => simp [List.dropWhile, h2]
  | cons x xs ih =>
    have hx : p x = true := h1 x (by simp)
    simp only [List.cons_append, List.dropWhile, hx]
    exact ih (fun y hy => h1 y (by simp [hy]))

/-- Reduction of the scanner at a well-formed token. -/
theorem scanTokens_token {n : List Char} (hn : validNameL n) (b : List Char) :
    scanTokens ('{' :: n ++ '}' :: b) = n :: scanTokens b := by
  cases n with
  | nil => exact absurd hn (by simp [validNameL])
  | cons d tl =>
    obtain ⟨hstart, hall⟩ := hn
    have hdw : (tl ++ '}' :: b).dropWhile isNameChar = '}' :: b :=
      dropWhile_all_bad _ _ _ _ hall isNameChar_rbrace
    have htw : (tl ++ '}' :: b).takeWhile isNameChar = tl :=
      takeWhile_all_bad _ _ _ _ hall isNameChar_rbrace
    show scanTokens ('{' :: d :: (tl ++ '}' :: b)) = (d :: tl) :: scanTokens b
    rw [scanTokens]
    simp only [hstart, if_true]
    split
    · rename_i rest3 heq
      rw [hdw] at heq
      injection heq with h1 h2
      subst h2
      rw [htw]
    · rename_i hne
      exact absurd (hne b hdw) (fun h => h)

theorem mem_takeWhile_pred (p : Char → Bool) (l : List Char) :
    ∀ x ∈ l.takeWhile p, p x = true := by
  induction l with
  | nil => simp [List.takeWhile]
  | cons c rest ih =>
    intro x hx
    cases hc : p c with
    | true =>
      simp only [List.takeWhile, hc] at hx
      rcases List.mem_cons.mp hx with h | h
      · exact h ▸ hc
      · exact ih x h
    | false =>
      simp only [List.takeWhile, hc] at hx
      simp at hx

theorem scanTokens_eq_token (d : Char) (rest2 rest3 : List Char)
    (hstart : isNameStart d = true)
    (hdw : rest2.dropWhile isNameChar = '}' :: rest3) :
    scanTokens ('{' :: d :: rest2) = (d :: rest2.takeWhile isNameChar) :: scanTokens rest3 := by
  conv_lhs => rw [scanTokens]
  simp only [hstart, if_true]
  split
  · rename_i r3 heq
    rw [hdw] at heq
    injection heq with h1 h2
    subst h2
    rfl
  · rename_i hne
    exact absurd (hne rest3 hdw) (fun h => h)

theorem scanTokens_eq_fail (d : Char) (rest2 : List Char)
    (hstart : isNameStart d = true)
    (hne : ∀ rest3, rest2.dropWhile isNameChar ≠ '}' :: rest3) :
    scanTokens ('{' :: d :: rest2) = scanTokens (d :: rest2) := by
  conv_lhs => rw [scanTokens]
  simp only [hstart, if_true]

theorem scanTokens_eq_nostart (d : Char) (rest2 : List Char)
    (hstart : ¬ isNameStart d = true) :
    scanTokens ('{' :: d :: rest2) = scanTokens (d :: rest2) := by
  conv_lhs => rw [scanTokens]
  simp [hstart]

theorem scanTokens_eq_skip (c : Char) (rest : List Char) (hc : c ≠ '{') :
    scanTokens (c :: rest) = scanTokens rest := by
  cases rest with
  | nil =>
    rw [scanTokens.eq_def]
    split
    · rename_i heq; injection heq
    · rename_i heq; injection heq with h1 h2; exact absurd h1 hc
    · rename_i heq; injection heq with h1 h2; exact absurd h1 hc
    · rename_i heq
      injection heq with h3 h4
      subst h4
      rfl
  | cons x xs =>
    rw [scanTokens.eq_def]
    split
    · rename_i heq; injection heq
    · rename_i d r2 heq
      injection heq with h1 h2
      exact absurd h1 hc
    · rename_i heq; injection heq with h1 h2; exact absurd h1 hc
    · rename_i c2 r2 h1 h2 heq
      injection heq with h3 h4
      subst h4
      rfl

theorem scanTokens_sound : ∀ (s : List Char), ∀ n ∈ scanTokens s, validNameL n ∧ occursIn (braced n) s := by
  intro s
  induction s using scanTokens.induct with
  | case1 => simp [scanTokens]
  | case2 d rest2 hstart rest3 hdw ih =>
    rw [scanTokens_eq_token d rest2 rest3 hstart hdw]
    intro n hn
    have hsplit : rest2 = rest2.takeWhile isNameChar ++ '}' :: rest3 := by
      conv_lhs => rw [← List.takeWhile_append_dropWhile (p := isNameChar) (l := rest2)]
      rw [hdw]
    rcases List.mem_cons.mp hn with h | h
    · subst h
      constructor
      · exact ⟨hstart, mem_takeWhile_pred isNameChar rest2⟩
      · refine ⟨[], rest3, ?_⟩
        simp only [braced, List.nil_append, List.cons_append, List.append_assoc,
          List.singleton_append]
        exact congrArg (fun t => '{' :: d :: t) hsplit
    · obtain ⟨hv, hocc⟩ := ih n h
      refine ⟨hv, ?_⟩
      have hres : ('{' :: d :: rest2) = ('{' :: d :: rest2.takeWhile isNameChar ++ ['}']) ++ rest3 := by
        conv_lhs => rw [hsplit]
        simp
      rw [hres]
      exact occursIn_append_left _ hocc
  | case3 d rest2 hstart hne ih =>
    rw [scanTokens_eq_fail d rest2 hstart (fun r3 h => hne r3 h)]
    intro n hn
    obtain ⟨hv, hocc⟩ := ih n hn
    exact ⟨hv, occursIn_cons _ hocc⟩
  | case4 d rest2 hstart ih =>
    rw [scanTokens_eq_nostart d rest2 hstart]
    intro n hn
    obtain ⟨hv, hocc⟩ := ih n hn
    exact ⟨hv, occursIn_cons _ hocc⟩
  | case5 => simp [scanTokens]
  | case6 c rest h1 h2 ih =>
    have hc : c ≠ '{' := by
      intro he
      cases rest with
      | nil => exact h2 he rfl
      | cons x xs => exact h1 x xs he rfl
    rw [scanTokens_eq_skip c rest hc]
    intro n hn
    obtain ⟨hv, hocc⟩ := ih n hn
    exact ⟨hv, occursIn_cons _ hocc⟩

/-- Membership shift: when the scanner consumes a token region containing no
brace-open, a later occurrence moves past it whole. -/
theorem occ_shift (pre : List Char) (hpre : ∀ c ∈ pre, c ≠ '{') :
    ∀ (a2 tail rest3 : List Char), a2 ++ '{' :: tail = pre ++ rest3 →
      ∃ a3, a3 ++ '{' :: tail = rest3 ∧ a2 = pre ++ a3 := by
  induction pre with
  | nil => intro a2 tail rest3 h; exact ⟨a2, by simpa using h, by simp⟩
  | cons p pres ih =>
    intro a2 tail rest3 h
    cases a2 with
    | nil =>
      simp only [List.nil_append, List.cons_append] at h
      have : p = '{' := (List.cons.injEq _ _ _ _).mp h |>.1 |>.symm
      exact absurd this (hpre p (by simp))
    | cons x a2t =>
      simp only [List.cons_append] at h
      obtain ⟨hx, ht⟩ := (List.cons.injEq _ _ _ _).mp h
      obtain ⟨a3, h3, h4⟩ := ih (fun c hc => hpre c (by simp [hc])) a2t tail rest3 ht
      exact ⟨a3, h3, by simp [hx, h4]⟩

theorem braced_ne_nil (n : List Char) : braced n ≠ [] := by simp [braced]

theorem scanTokens_complete :
    ∀ (s n : List Char), validNameL n → occursIn (braced n) s → n ∈ scanTokens s := by
  intro s
  induction s using scanTokens.induct with
  | case1 =>
    intro n hv hocc
    obtain ⟨a, b, hab⟩ := hocc
    exact absurd hab.symm (by simp [braced])
  | case2 d rest2 hstart rest3 hdw ih =>
    intro n hv hocc
    rw [scanTokens_eq_token d rest2 rest3 hstart hdw]
    have hsplit : rest2 = rest2.takeWhile isNameChar ++ '}' :: rest3 := by
      conv_lhs => rw [← List.takeWhile_append_dropWhile (p := isNameChar) (l := rest2)]
      rw [hdw]
    obtain ⟨a, b, hab⟩ := hocc
    cases a with
    | nil =>
      -- the occurrence is the token the scanner just found
      simp only [List.nil_append, braced, List.cons_append] at hab
      injection hab with h1 h2
      -- h2 : d :: rest2 = n ++ '}' :: b
      cases n with
      | nil => exact absurd hv (by simp [validNameL])
      | cons nh nt =>
        simp only [List.cons_append] at h2
        injection h2 with h3 h4
        subst h3
        obtain ⟨hs2, hall⟩ := hv
        have h4s : rest2 = nt ++ '}' :: b := by rw [h4]; simp
        have htw : rest2.takeWhile isNameChar = nt := by
          rw [h4s]
          exact takeWhile_all_bad _ _ _ _ hall isNameChar_rbrace
        rw [htw]
        exact List.mem_cons_self _ _
    | cons c a2 =>
      -- the occurrence starts after the consumed token
      simp only [List.cons_append] at hab
      injection hab with h1 h2
      have hpre : ∀ x ∈ (d :: rest2.takeWhile isNameChar) ++ ['}'], x ≠ '{' := by
        intro x hx
        rcases List.mem_append.mp hx with hx1 | hx1
        · rcases List.mem_cons.mp hx1 with hx2 | hx2
          · exact hx2 ▸ isNameStart_ne_lbrace hstart
          · exact isNameChar_ne_lbrace (mem_takeWhile_pred _ _ x hx2)
        · simp at hx1; subst hx1; decide
      have hcons : d :: rest2 = ((d :: rest2.takeWhile isNameChar) ++ ['}']) ++ rest3 := by
        conv_lhs => rw [hsplit]
        simp
      have h2w : a2 ++ '{' :: (n ++ ['}'] ++ b) = ((d :: rest2.takeWhile isNameChar) ++ ['}']) ++ rest3 := by
        have hL : a2 ++ '{' :: (n ++ ['}'] ++ b) = a2 ++ braced n ++ b := by simp [braced]
        rw [hL, ← h2, hcons]
      obtain ⟨a3, h3, _⟩ := occ_shift _ hpre a2 (n ++ ['}'] ++ b) rest3 h2w
      have : occursIn (braced n) rest3 := ⟨a3, b, by rw [← h3]; simp [braced]⟩
      exact List.mem_cons_of_mem _ (ih n hv this)
  | case3 d rest2 hstart hne ih =>
    intro n hv hocc
    rw [scanTokens_eq_fail d rest2 hstart (fun r3 h => hne r3 h)]
    obtain ⟨a, b, hab⟩ := hocc
    cases a with
    | nil =>
      -- a token at position 0 contradicts the failed parse
      exfalso
      simp only [List.nil_append, braced, List.cons_append] at hab
      injection hab with h1 h2
      cases n with
      | nil => exact absurd hv (by simp [validNameL])
      | cons nh nt =>
        simp only [List.cons_append] at h2
        injection h2 with h3 h4
        obtain ⟨hs2, hall⟩ := hv
        have h4s : rest2 = nt ++ '}' :: b := by rw [h4]; simp
        have : rest2.dropWhile isNameChar = '}' :: b := by
          rw [h4s]
          exact dropWhile_all_bad _ _ _ _ hall isNameChar_rbrace
        exact hne b this
    | cons c a2 =>
      apply ih n hv
      simp only [List.cons_append] at hab
      injection hab with h1 h2
      exact ⟨a2, b, h2⟩
  | case4 d rest2 hstart ih =>
    intro n hv hocc
    rw [scanTokens_eq_nostart d rest2 hstart]
    obtain ⟨a, b, hab⟩ := hocc
    cases a with
    | nil =>
      exfalso
      simp only [List.nil_append, braced, List.cons_append] at hab
      injection hab with h1 h2
      cases n with
      | nil => exact absurd hv (by simp [validNameL])
      | cons nh nt =>
        simp only [List.cons_append] at h2
        injection h2 with h3 h4
        exact hstart (h3 ▸ hv.1)
    | cons c a2 =>
      apply ih n hv
      simp only [List.cons_append] at hab
      injection hab with h1 h2
      exact ⟨a2, b, h2⟩
  | case5 =>
    intro n hv hocc
    exfalso
    obtain ⟨a, b, hab⟩ := hocc
    have := congrArg List.length hab
    simp [braced] at this
    omega
  | case6 c rest h1 h2 ih =>
    intro n hv hocc
    have hc : c ≠ '{' := by
      intro he
      cases rest with
      | nil => exact h2 he rfl
      | cons x xs => exact h1 x xs he rfl
    rw [scanTokens_eq_skip c rest hc]
    obtain ⟨a, b, hab⟩ := hocc
    cases a with
    | nil =>
      exfalso
      simp only [List.nil_append, braced, List.cons_append] at hab
      injection hab with h1 h2
      exact hc h1
    | cons x a2 =>
      apply ih n hv
      simp only [List.cons_append] at hab
      injection hab with h1 h2
      exact ⟨a2, b, h2⟩

theorem splitOnL_ne_nil (pat s : List Char) : splitOnL pat s ≠ [] := by
  induction s using splitOnL.induct pat with
  | case1 => simp [splitOnL]
  | case2 c rest hp ih =>
    rw [splitOnL]
    simp [hp]
  | case3 c rest hp chunk more hs ih =>
    rw [splitOnL]
    simp [hp, hs]
  | case4 c rest hp hs ih =>
    rw [splitOnL]
    simp [hp, hs]

theorem prefix_decomp {pat : List Char} (hne : pat ≠ []) {c : Char} {rest : List Char}
    (h : pat.isPrefixOf (c :: rest) = true) :
    c :: rest = pat ++ List.drop (pat.length - 1) rest := by
  obtain ⟨t, ht⟩ := List.isPrefixOf_iff_prefix.mp h
  cases pat with
  | nil => exact absurd rfl hne
  | cons p pt =>
    simp only [List.cons_append] at ht
    injection ht with h1 h2
    subst h1
    rw [← h2]
    simp [List.drop_left]

theorem joinSep_splitOnL (pat : List Char) (hne : pat ≠ []) :
    ∀ s, joinSep pat (splitOnL pat s) = s := by
  intro s
  induction s using splitOnL.induct pat with
  | case1 => simp [splitOnL, joinSep]
  | case2 c rest hp ih =>
    rw [splitOnL]
    simp only [hp, if_true]
    obtain ⟨ch, mo, hs⟩ : ∃ ch mo, splitOnL pat (List.drop (pat.length - 1) rest) = ch :: mo := by
      cases hsp : splitOnL pat (List.drop (pat.length - 1) rest) with
      | nil => exact absurd hsp (splitOnL_ne_nil _ _)
      | cons ch mo => exact ⟨ch, mo, rfl⟩
    rw [hs]
    rw [hs] at ih
    show [] ++ pat ++ joinSep pat (ch :: mo) = c :: rest
    rw [ih]
    simp only [List.nil_append]
    exact (prefix_decomp hne hp).symm
  | case3 c rest hp chunk more hsp ih =>
    rw [splitOnL]
    simp only [hp, if_false]
    rw [hsp]
    rw [hsp] at ih
    cases more with
    | nil =>
      show c :: chunk = c :: rest
      simp only [joinSep] at ih
      rw [ih]
    | cons m1 m2 =>
      show (c :: chunk) ++ pat ++ joinSep pat (m1 :: m2) = c :: rest
      simp only [joinSep] at ih
      rw [← ih]
      simp
  | case4 c rest hp hsp ih =>
    exact absurd hsp (splitOnL_ne_nil _ _)

theorem replaceAllL_eq_joinSep (pat v : List Char) :
    ∀ s, replaceAllL pat v s = joinSep v (splitOnL pat s) := by
  intro s
  induction s using splitOnL.induct pat with
  | case1 => simp [splitOnL, replaceAllL, joinSep]
  | case2 c rest hp ih =>
    rw [splitOnL, replaceAllL]
    simp only [hp, if_true]
    obtain ⟨ch, mo, hs⟩ : ∃ ch mo, splitOnL pat (List.drop (pat.length - 1) rest) = ch :: mo := by
      cases hsp : splitOnL pat (List.drop (pat.length - 1) rest) with
      | nil => exact absurd hsp (splitOnL_ne_nil _ _)
      | cons ch mo => exact ⟨ch, mo, rfl⟩
    rw [hs]
    rw [hs] at ih
    show v ++ replaceAllL pat v (List.drop (pat.length - 1) rest) = [] ++ v ++ joinSep v (ch :: mo)
    rw [ih]
    simp
  | case3 c rest hp chunk more hsp ih =>
    rw [splitOnL, replaceAllL]
    simp only [hp, if_false]
    rw [hsp]
    rw [hsp] at ih
    cases more with
    | nil =>
      show c :: replaceAllL pat v rest = c :: chunk
      simp only [joinSep] at ih
      rw [ih]
    | cons m1 m2 =>
      show c :: replaceAllL pat v rest = (c :: chunk) ++ v ++ joinSep v (m1 :: m2)
      simp only [joinSep] at ih
      rw [ih]
      simp
  | case4 c rest hp hsp ih =>
    exact absurd hsp (splitOnL_ne_nil _ _)

theorem splitOnL_head_prefix (pat : List Char) :
    ∀ s chunk more, splitOnL pat s = chunk :: more → ∃ t, s = chunk ++ t := by
  intro s
  induction s using splitOnL.induct pat with
  | case1 =>
    intro chunk more h
    simp only [splitOnL] at h
    injection h with h1 h2
    exact ⟨[], by simp [← h1]⟩
  | case2 c rest hp ih =>
    intro chunk more h
    rw [splitOnL] at h
    simp only [hp, if_true] at h
    injection h with h1 h2
    exact ⟨c :: rest, by simp [← h1]⟩
  | case3 c rest hp chunk0 more0 hsp ih =>
    intro chunk more h
    rw [splitOnL] at h
    simp only [hp, if_false] at h
    rw [hsp] at h
    injection h with h1 h2
    obtain ⟨t, ht⟩ := ih chunk0 more0 hsp
    exact ⟨t, by rw [← h1]; simp [ht]⟩
  | case4 c rest hp hsp ih =>
    intro chunk more h
    exact absurd hsp (splitOnL_ne_nil _ _)

theorem splitOnL_chunks_free (pat : List Char) (hne : pat ≠ []) :
    ∀ s, ∀ chunk ∈ splitOnL pat s, ¬ occursIn pat chunk := by
  intro s
  induction s using splitOnL.induct pat with
  | case1 =>
    intro chunk hc hocc
    simp only [splitOnL, List.mem_singleton] at hc
    subst hc
    obtain ⟨a, b, hab⟩ := hocc
    have := congrArg List.length hab
    simp at this
    cases pat with
    | nil => exact hne rfl
    | cons p pt => simp at this; omega
  | case2 c rest hp ih =>
    intro chunk hc hocc
    rw [splitOnL] at hc
    simp only [hp, if_true] at hc
    rcases List.mem_cons.mp hc with h | h
    · subst h
      obtain ⟨a, b, hab⟩ := hocc
      have := congrArg List.length hab
      simp at this
      cases pat with
      | nil => exact hne rfl
      | cons p pt => simp at this; omega
    · exact ih chunk h hocc
  | case3 c rest hp chunk0 more0 hsp ih =>
    intro chunk hc hocc
    rw [splitOnL] at hc
    simp only [hp, if_false] at hc
    rw [hsp] at hc
    rcases List.mem_cons.mp hc with h | h
    · subst h
      obtain ⟨a, b, hab⟩ := hocc
      cases a with
      | nil =>
        simp only [List.nil_append] at hab
        obtain ⟨t, ht⟩ := splitOnL_head_prefix pat rest chunk0 more0 hsp
        apply hp
        apply List.isPrefixOf_iff_prefix.mpr
        refine ⟨b ++ t, ?_⟩
        rw [← List.append_assoc, ← hab]
        simp [ht]
      | cons x a2 =>
        injection hab with h1 h2
        exact ih chunk0 (hsp ▸ List.mem_cons_self _ _) ⟨a2, b, h2⟩
    · exact ih chunk (hsp ▸ List.mem_cons_of_mem _ h) hocc
  | case4 c rest hp hsp ih =>
    intro chunk hc hocc
    exact absurd hsp (splitOnL_ne_nil _ _)

theorem replaceAllL_of_not_occurs (pat v : List Char) :
    ∀ s, ¬ occursIn pat s → replaceAllL pat v s = s := by
  intro s
  induction s with
  | nil => intro h; simp [replaceAllL]
  | cons c rest ih =>
    intro hno
    rw [replaceAllL]
    have hp : pat.isPrefixOf (c :: rest) = false := by
      cases hq : pat.isPrefixOf (c :: rest) with
      | false => rfl
      | true =>
        obtain ⟨t, ht⟩ := List.isPrefixOf_iff_prefix.mp hq
        exact absurd ⟨[], t, by simp [← ht]⟩ hno
    simp [hp, ih (fun ho => hno (occursIn_cons c ho))]

theorem scanTokens_nil : scanTokens [] = [] := by rw [scanTokens]

theorem substitute_id_of_no_tokens :
    ∀ (m : List (List Char × List Char)) (s : List Char),
      scanTokens s = [] → (∀ k ∈ m.map Prod.fst, validNameL k) →
      substitutePlaceholders s m = s := by
  intro m
  induction m with
  | nil => intro s h hk; rfl
  | cons nv m2 ih =>
    intro s h hk
    have hid : replaceAllL (braced nv.1) nv.2 s = s := by
      apply replaceAllL_of_not_occurs
      intro ho
      have hmem : nv.1 ∈ scanTokens s :=
        scanTokens_complete s nv.1 (hk nv.1 (by simp)) ho
      rw [h] at hmem
      exact absurd hmem (List.not_mem_nil _)
    simp only [substitutePlaceholders, List.foldl_cons]
    rw [hid]
    exact ih s h (fun k hk2 => hk k (by simp; right; simpa using hk2))

/-- Claim C10: placeholder scanning recognizes exactly the braced tokens
`{name}` whose name matches `[a-zA-Z_][a-zA-Z0-9_]*` (clause 1: a name is
reported iff it is valid and its braced form occurs in the string, so a
braced token of any other shape is never reported); a string containing no
recognized placeholder is left verbatim by substitution for any map with
valid keys, and no error arises (clause 2; totality of the embedded
functions models absence of errors); and substitution for a recognized
placeholder replaces every (leftmost non-overlapping) occurrence of this
placeholder in the string (clause 3: the string splits into
placeholder-free chunks separated by the occurrences, and substitution
joins the same chunks with the replacement value). -/
theorem C10_placeholder_scanning :
    (∀ s n : List Char, n ∈ extractPlaceholderNames s ↔ validNameL n ∧ occursIn (braced n) s)
    ∧ (∀ (s : List Char) (m : List (List Char × List Char)),
        extractPlaceholderNames s = [] →
        (∀ k ∈ m.map Prod.fst, validNameL k) →
        substitutePlaceholders s m = s)
    ∧ (∀ s n v : List Char, ∃ chunks, chunks ≠ [] ∧
        s = joinSep (braced n) chunks ∧
        substitutePlaceholders s [(n, v)] = joinSep v chunks ∧
        ∀ chunk ∈ chunks, ¬ occursIn (braced n) chunk) := by
  refine ⟨?_, ?_, ?_⟩
  · intro s n
    constructor
    · exact fun h => scanTokens_sound s n h
    · exact fun h => scanTokens_complete s n h.1 h.2
  · intro s m h hk
    exact substitute_id_of_no_tokens m s h hk
  · intro s n v
    refine ⟨splitOnL (braced n) s, splitOnL_ne_nil _ _,
      (joinSep_splitOnL (braced n) (braced_ne_nil n) s).symm, ?_,
      splitOnL_chunks_free (braced n) (braced_ne_nil n) s⟩
    show replaceAllL (braced n) v s = _
    exact replaceAllL_eq_joinSep _ _ s

theorem scanTokens_ex2 : scanTokens ['{', '2', 'x', '}'] = [] := by
  rw [scanTokens_eq_nostart '2' ['x', '}'] (by decide),
    scanTokens_eq_skip '2' ['x', '}'] (by decide),
    scanTokens_eq_skip 'x' ['}'] (by decide),
    scanTokens_eq_skip '}' [] (by decide),
    scanTokens_nil]

/-- Witness for C10 at concrete inputs: `{a}` inside `x{a}` is reported,
and the malformed token `{2x}` is not reported and survives substitution
verbatim. -/
theorem C10_witness :
    (['a'] ∈ extractPlaceholderNames ['x', '{', 'a', '}'])
    ∧ substitutePlaceholders ['{', '2', 'x', '}'] [(['x'], ['9'])] = ['{', '2', 'x', '}'] := by
  constructor
  · exact (C10_placeholder_scanning.1 ['x', '{', 'a', '}'] ['a']).mpr
      ⟨by decide, ⟨['x'], [], by decide⟩⟩
  · exact C10_placeholder_scanning.2.1 ['{', '2', 'x', '}'] [(['x'], ['9'])]
      scanTokens_ex2 (by decide)

theorem foldl_mul_count (its : List Iterator) :
    ∀ a : Nat, its.foldl (fun acc it => acc * it.count) a = a * (its.map Iterator.count).prod := by
  induction its with
  | nil => intro a; simp
  | cons it rest ih =>
    intro a
    simp only [List.foldl_cons, List.map_cons, List.prod_cons, ih]
    ring

theorem lookupA_generateLoop_not_mem (nm : String) :
    ∀ (its : List Iterator) (k rep : Nat) (acc : List (String × String)),
      nm ∉ its.map Iterator.name →
      lookupA (generateLoop its k rep acc) nm = lookupA acc nm := by
  intro its
  induction its with
  | nil => intro k rep acc _; rfl
  | cons it rest ih =>
    intro k rep acc hnm
    simp only [List.map_cons, List.mem_cons, not_or] at hnm
    simp only [generateLoop]
    rw [ih k (rep * it.count) _ hnm.2]
    exact lookupA_mapSet_other _ _ _ _ hnm.1

theorem generateLoop_digit :
    ∀ (its : List Iterator), (its.map Iterator.name).Nodup →
    ∀ (i : Nat) (hi : i < its.length) (k rep : Nat) (acc : List (String × String)),
      lookupA (generateLoop its k rep acc) (its.get ⟨i, hi⟩).name
        = some ((its.get ⟨i, hi⟩).generator
            ((k / (rep * ((its.take i).map Iterator.count).prod)) % (its.get ⟨i, hi⟩).count)) := by
  intro its
  induction its with
  | nil => intro _ i hi; simp at hi
  | cons it rest ih =>
    intro hnd i hi k rep acc
    simp only [List.map_cons, List.nodup_cons] at hnd
    cases i with
    | zero =>
      simp only [List.get, generateLoop, List.take_zero, List.map_nil, List.prod_nil, Nat.mul_one]
      rw [lookupA_generateLoop_not_mem _ _ _ _ _ hnd.1]
      exact lookupA_mapSet_self _ _ _
    | succ i2 =>
      have hi2 : i2 < rest.length := by simpa using hi
      simp only [List.get, generateLoop]
      have := ih hnd.2 i2 hi2 k (rep * it.count)
        (mapSet acc it.name (it.generator ((k / rep) % it.count)))
      rw [this]
      congr 2
      simp only [List.take_succ_cons, List.map_cons, List.prod_cons]
      ring_nf

theorem mixedRadix_inj :
    ∀ (counts : List Nat) (k k2 : Nat),
      k < counts.prod → k2 < counts.prod →
      (∀ (i : Nat) (hi : i < counts.length),
        (k / ((counts.take i).prod)) % counts.get ⟨i, hi⟩
          = (k2 / ((counts.take i).prod)) % counts.get ⟨i, hi⟩) →
      k = k2 := by
  intro counts
  induction counts with
  | nil =>
    intro k k2 hk hk2 _
    simp only [List.prod_nil, Nat.lt_one_iff] at hk hk2
    omega
  | cons c cs ih =>
    intro k k2 hk hk2 hd
    have hc : 0 < c := by
      rcases Nat.eq_zero_or_pos c with h | h
      · subst h; simp at hk
      · exact h
    have h0 : k % c = k2 % c := by
      have := hd 0 (by simp)
      simpa using this
    have hrest : ∀ (i : Nat) (hi : i < cs.length),
        ((k / c) / ((cs.take i).prod)) % cs.get ⟨i, hi⟩
          = ((k2 / c) / ((cs.take i).prod)) % cs.get ⟨i, hi⟩ := by
      intro i hi
      have := hd (i + 1) (by simpa using Nat.succ_lt_succ hi)
      simpa [List.take_succ_cons, List.prod_cons, Nat.div_div_eq_div_mul, Nat.mul_comm] using this
    have hkb : k / c < cs.prod := by
      rw [Nat.div_lt_iff_lt_mul hc]
      calc k < (c :: cs).prod := hk
        _ = cs.prod * c := by simp [List.prod_cons]; ring
    have hk2b : k2 / c < cs.prod := by
      rw [Nat.div_lt_iff_lt_mul hc]
      calc k2 < (c :: cs).prod := hk2
        _ = cs.prod * c := by simp [List.prod_cons]; ring
    have hdiv : k / c = k2 / c := ih (k / c) (k2 / c) hkb hk2b hrest
    calc k = c * (k / c) + k % c := (Nat.div_add_mod k c).symm
      _ = c * (k2 / c) + k2 % c := by rw [hdiv, h0]
      _ = k2 := Nat.div_add_mod k2 c

theorem forEachFrom_eq_foldlM (g : CombinationGenerator) {σ ε : Type}
    (fn : List (String × String) → σ → Except ε σ) :
    ∀ (nrem i : Nat), g.total - i = nrem → ∀ (st : σ),
      forEachFrom g fn i st
        = (List.range' i nrem).foldlM (fun s j => fn (g.Generate j) s) st := by
  intro nrem
  induction nrem with
  | zero =>
    intro i hrem st
    rw [forEachFrom]
    have hni : ¬ i < g.total := by omega
    simp only [hni, dif_neg, not_false_iff, List.range']
    rfl
  | succ n ihn =>
    intro i hrem st
    rw [forEachFrom]
    have hlt : i < g.total := by omega
    simp only [hlt, dif_pos]
    have hr : List.range' i (n + 1) = i :: List.range' (i + 1) n := by
      simp [List.range']
    rw [hr]
    cases hfn : fn (g.Generate i) st with
    | error e =>
      simp only [List.foldlM, hfn]
      rfl
    | ok st2 =>
      simp only [List.foldlM, hfn]
      have := ihn (i + 1) (by omega) st2
      rw [this]
      rfl

theorem ForEach_eq_foldlM (g : CombinationGenerator) {σ ε : Type}
    (fn : List (String × String) → σ → Except ε σ) (st : σ) :
    g.ForEach fn st
      = (List.range g.total).foldlM (fun s j => fn (g.Generate j) s) st := by
  rw [CombinationGenerator.ForEach, forEachFrom_eq_foldlM g fn g.total 0 (by omega) st,
    List.range_eq_range']

theorem ForEach_first_error (g : CombinationGenerator) {σ ε : Type}
    (fn : List (String × String) → σ → Except ε σ) (st : σ)
    (k : Nat) (hk : k < g.total) (sk : σ) (e : ε)
    (hok : (List.range k).foldlM (fun s j => fn (g.Generate j) s) st = .ok sk)
    (herr : fn (g.Generate k) sk = .error e) :
    g.ForEach fn st = .error e := by
  rw [ForEach_eq_foldlM]
  have hsplit : List.range g.total = List.range k ++ List.range' k (g.total - k) := by
    rw [List.range_eq_range', List.range_eq_range']
    have happ := List.range'_append 0 k (g.total - k) 1
    simp only [Nat.zero_add, Nat.one_mul] at happ
    have he : g.total - k + k = g.total := by omega
    rw [he] at happ
    exact happ.symm
  rw [hsplit, List.foldlM_append, hok]
  have hr : List.range' k (g.total - k) = k :: List.range' (k + 1) (g.total - k - 1) := by
    have h2 : g.total - k = (g.total - k - 1) + 1 := by omega
    rw [h2]
    simp [List.range']
  show List.foldlM (fun s j => fn (g.Generate j) s) sk (List.range' k (g.total - k))
      = Except.error e
  rw [hr]
  simp only [List.foldlM, herr]
  rfl

theorem NewCombinationGenerator_iterators (its : List Iterator) :
    (NewCombinationGenerator its).iterators = its := by
  rw [NewCombinationGenerator]
  split <;> rfl

theorem NewCombinationGenerator_total (its : List Iterator) (hne : its ≠ []) :
    (NewCombinationGenerator its).total = (its.map Iterator.count).prod := by
  rw [NewCombinationGenerator]
  have hie : its.isEmpty = false := by
    cases its with
    | nil => exact absurd rfl hne
    | cons a b => rfl
  simp [hie, foldl_mul_count]

theorem Generate_eq_loop (its : List Iterator) (k : Nat) :
    (NewCombinationGenerator its).Generate k = generateLoop its k 1 [] := by
  rw [CombinationGenerator.Generate, NewCombinationGenerator_iterators]

theorem Generate_digit (its : List Iterator) (hnd : (its.map Iterator.name).Nodup)
    (k : Nat) (i : Nat) (hi : i < its.length) :
    lookupA ((NewCombinationGenerator its).Generate k) (its.get ⟨i, hi⟩).name
      = some ((its.get ⟨i, hi⟩).generator
          ((k / ((its.take i).map Iterator.count).prod) % (its.get ⟨i, hi⟩).count)) := by
  rw [Generate_eq_loop]
  have := generateLoop_digit its hnd i hi k 1 []
  simpa using this

/-- Claim C3 (amended): for a non-empty iterator list, `Total` is the
product of the iterator lengths; `Generate k` assigns iterator `i` its
value at index `(k / Π_{j<i} len_j) mod len_i` (earlier iterators vary
fastest), so that, provided the iterator names are pairwise distinct and
each iterator yields distinct values at distinct indices, the `Total`
generated combinations are pairwise distinct; `ForEach` invokes the
callback once per index in increasing index order (it equals the
sequential fold over `range Total`) and stops at, and returns, the first
callback error. -/
theorem C3_combination_generator (its : List Iterator) (hne : its ≠ []) :
    ((NewCombinationGenerator its).total = (its.map Iterator.count).prod)
    ∧ ((its.map Iterator.name).Nodup →
        ∀ (k : Nat), k < (NewCombinationGenerator its).total →
        ∀ (i : Nat) (hi : i < its.length),
          lookupA ((NewCombinationGenerator its).Generate k) (its.get ⟨i, hi⟩).name
            = some ((its.get ⟨i, hi⟩).ValueAt
                ((k / ((its.take i).map Iterator.count).prod) % (its.get ⟨i, hi⟩).Len)))
    ∧ ((its.map Iterator.name).Nodup →
        (∀ it ∈ its, ∀ a b : Nat, a < it.count → b < it.count →
          it.generator a = it.generator b → a = b) →
        ∀ k k2 : Nat, k < (NewCombinationGenerator its).total →
          k2 < (NewCombinationGenerator its).total →
          (NewCombinationGenerator its).Generate k = (NewCombinationGenerator its).Generate k2 →
          k = k2)
    ∧ (∀ (σ ε : Type) (fn : List (String × String) → σ → Except ε σ) (st : σ),
        (NewCombinationGenerator its).ForEach fn st
          = (List.range (NewCombinationGenerator its).total).foldlM
              (fun s j => fn ((NewCombinationGenerator its).Generate j) s) st)
    ∧ (∀ (σ ε : Type) (fn : List (String × String) → σ → Except ε σ) (st : σ)
        (k : Nat) (sk : σ) (e : ε), k < (NewCombinationGenerator its).total →
        (List.range k).foldlM
            (fun s j => fn ((NewCombinationGenerator its).Generate j) s) st = .ok sk →
        fn ((NewCombinationGenerator its).Generate k) sk = .error e →
        (NewCombinationGenerator its).ForEach fn st = .error e) := by
  refine ⟨NewCombinationGenerator_total its hne, ?_, ?_, ?_, ?_⟩
  · intro hnd k _ i hi
    exact Generate_digit its hnd k i hi
  · intro hnd hinj k k2 hk hk2 heq
    rw [NewCombinationGenerator_total its hne] at hk hk2
    apply mixedRadix_inj (its.map Iterator.count) k k2 hk hk2
    intro i hi
    have hi2 : i < its.length := by simpa using hi
    have hcpos : 0 < (its.get ⟨i, hi2⟩).count := by
      rcases Nat.eq_zero_or_pos (its.get ⟨i, hi2⟩).count with h0 | h
      · exfalso
        have hmem : (0 : Nat) ∈ its.map Iterator.count := by
          refine List.mem_map.mpr ⟨its.get ⟨i, hi2⟩, List.get_mem _ _ _, h0⟩
        have : (its.map Iterator.count).prod = 0 := List.prod_eq_zero hmem
        omega
      · exact h
    have hd1 := Generate_digit its hnd k i hi2
    have hd2 := Generate_digit its hnd k2 i hi2
    rw [heq] at hd1
    have hgen : (its.get ⟨i, hi2⟩).generator
          ((k / ((its.take i).map Iterator.count).prod) % (its.get ⟨i, hi2⟩).count)
        = (its.get ⟨i, hi2⟩).generator
          ((k2 / ((its.take i).map Iterator.count).prod) % (its.get ⟨i, hi2⟩).count) := by
      have := hd1.symm.trans hd2
      exact Option.some.inj this
    have hdig := hinj (its.get ⟨i, hi2⟩) (List.get_mem _ _ _) _ _
      (Nat.mod_lt _ hcpos) (Nat.mod_lt _ hcpos) hgen
    have hct : (its.map Iterator.count).get ⟨i, hi⟩ = (its.get ⟨i, hi2⟩).count := by
      simp [List.get_eq_getElem, List.getElem_map]
    have htk : ((its.map Iterator.count).take i).prod
        = ((its.take i).map Iterator.count).prod := by
      rw [List.map_take]
    rw [hct, htk]
    exact hdig
  · intro σ ε fn st
    exact ForEach_eq_foldlM _ fn st
  · intro σ ε fn st k sk e hk hok herr
    exact ForEach_first_error _ fn st k hk sk e hok herr

/-- Claim C3, as stated, fails: the two indices of the combination
generator over the single list iterator `("a", ["x","x"])` produce equal
combination maps, so the `Total` generated combinations are not pairwise
distinct. -/
theorem C3_counterexample :
    (NewCombinationGenerator [NewListIterator "a" ["x", "x"]]).total = 2
    ∧ (0 : Nat) ≠ 1
    ∧ (NewCombinationGenerator [NewListIterator "a" ["x", "x"]]).Generate 0
      = (NewCombinationGenerator [NewListIterator "a" ["x", "x"]]).Generate 1 := by
  refine ⟨by decide, by decide, by decide⟩

/-- Witness for the amended C3 at the iterators `range a 0..1` and
`list b [u,v,w]`: total is 6, index 3 decodes to `a=1, b=v`, `ForEach`
visits all six combinations in order, and a callback error at index 2 is
returned as the result. -/
theorem C3_witness :
    (NewCombinationGenerator
        [NewRangeIterator "a" 0 1, NewListIterator "b" ["u", "v", "w"]]).total = 6
    ∧ lookupA ((NewCombinationGenerator
        [NewRangeIterator "a" 0 1, NewListIterator "b" ["u", "v", "w"]]).Generate 3) "a"
        = some "1"
    ∧ (NewCombinationGenerator
        [NewRangeIterator "a" 0 1, NewListIterator "b" ["u", "v", "w"]]).ForEach
        (fun _ (n : Nat) => (.ok (n + 1) : Except Unit Nat)) 0 = .ok 6
    ∧ (NewCombinationGenerator
        [NewRangeIterator "a" 0 1, NewListIterator "b" ["u", "v", "w"]]).ForEach
        (fun _ (n : Nat) => if n = 2 then (.error "boom" : Except String Nat) else .ok (n + 1)) 0
        = .error "boom" := by
  obtain ⟨h1, h2, h3, h4, h5⟩ := C3_combination_generator
    [NewRangeIterator "a" 0 1, NewListIterator "b" ["u", "v", "w"]] (List.cons_ne_nil _ _)
  refine ⟨h1.trans (by decide), ?_, ?_, ?_⟩
  · have := h2 (by decide) 3 (by rw [h1]; decide) 0 (by decide)
    exact this.trans (by decide)
  · exact (h4 Nat Unit (fun _ n => .ok (n + 1)) 0).trans (by rfl)
  · exact h5 Nat String
      (fun _ n => if n = 2 then (.error "boom" : Except String Nat) else .ok (n + 1)) 0
      2 2 "boom" (by rw [h1]; decide) (by rfl) (by rfl)

theorem foldlM_append_ok {E α : Type} (f : α → E) :
    ∀ (l : List α) (acc : List E),
      List.foldlM (fun s j => (.ok (s ++ [f j]) : Except String (List E))) acc l
        = .ok (acc ++ l.map f) := by
  intro l
  induction l with
  | nil => intro acc; simp only [List.foldlM, List.map_nil, List.append_nil]; rfl
  | cons x xs ih =>
    intro acc
    simp only [List.foldlM, List.map_cons]
    show List.foldlM (fun s j => (.ok (s ++ [f j]) : Except String (List E))) (acc ++ [f x]) xs
        = .ok (acc ++ f x :: xs.map f)
    rw [ih (acc ++ [f x])]
    simp

theorem ForEach_append_ok {E : Type} (g : CombinationGenerator)
    (sub : List (String × String) → E → E) (item : E) (acc : List E) :
    g.ForEach (fun combo acc2 => (.ok (acc2 ++ [sub combo item]) : Except String (List E))) acc
      = .ok (acc ++ (List.range g.total).map (fun k => sub (g.Generate k) item)) := by
  rw [ForEach_eq_foldlM]
  exact foldlM_append_ok (fun k => sub (g.Generate k) item) (List.range g.total) acc

theorem expandLoop_eq_spec {E : Type} (fp : E → List String)
    (sub : List (String × String) → E → E) (reg : IteratorRegistry) (entityType : String) :
    ∀ (items : List E) (i : Nat) (acc : List E),
      expandLoop fp sub reg entityType items i acc
        = match expandSpec fp sub reg entityType items i with
          | .error e => .error e
          | .ok c => .ok (acc ++ c) := by
  intro items
  induction items with
  | nil => intro i acc; simp [expandLoop, expandSpec]
  | cons item rest ih =>
    intro i acc
    rw [expandLoop, expandSpec]
    by_cases hfp : fp item = []
    · simp only [hfp, if_pos rfl]
      rw [ih (i + 1) (acc ++ [item])]
      cases expandSpec fp sub reg entityType rest (i + 1) with
      | error e => simp
      | ok cs => simp
    · rw [if_neg hfp, if_neg hfp]
      cases hgi : reg.GetIterators (fp item) with
      | error e => simp
      | ok its =>
        simp only []
        by_cases hz : (NewCombinationGenerator its).total = 0
        · rw [if_pos hz, if_pos hz]
        · rw [if_neg hz, if_neg hz]
          rw [ForEach_append_ok]
          show expandLoop fp sub reg entityType rest (i + 1)
              (acc ++ (List.range (NewCombinationGenerator its).total).map
                (fun k => sub ((NewCombinationGenerator its).Generate k) item)) = _
          rw [ih (i + 1)]
          cases hsp : expandSpec fp sub reg entityType rest (i + 1) with
          | error e => simp
          | ok cs => simp

/-- Claim C4: for every entity slice and iterator registry, the expansion
driver behaves exactly as specified: an entity with no placeholders is
kept unchanged and in place; an entity with placeholders fails if a
referenced iterator name is undefined or if the combination total is
zero, and otherwise contributes exactly `Total` substituted deep copies,
one per combination in combination-index order; declaration order is
preserved across the whole slice.  (`expandSpec` states this behavior in
the words of the spec; the theorem identifies the source `expand` loop
with it.) -/
theorem C4_expand_driver :
    ∀ (E : Type) (fp : E → List String) (sub : List (String × String) → E → E)
      (reg : IteratorRegistry) (entityType : String) (items : List E),
      expand fp sub items (some reg) entityType = expandSpec fp sub reg entityType items 0 := by
  intro E fp sub reg entityType items
  show expandLoop fp sub reg entityType items 0 [] = _
  rw [expandLoop_eq_spec]
  cases expandSpec fp sub reg entityType items 0 with
  | error e => rfl
  | ok c => simp

/-! ## Claims about reference resolution -/
/-- Claim C5: resolving a clock, source, or value reference of the form
`instance: X` returns the already-resolved instance `X` verbatim; it fails
with a not-found error if `X` is not a known instance of that kind; and,
for a known instance, it fails with the "cannot override instance" error
exactly when a template name or any override field is present alongside
the instance name. -/
theorem C5_instance_reference (r : Resolver) (ctx : List String) :
    (∀ raw : RawClockReference, raw.instance_ ≠ "" →
      (lookupA r.instanceClocks raw.instance_ = none →
        r.resolveClockReference raw ctx
          = .error (ctxError ctx ("clock instance \"" ++ raw.instance_ ++ "\" not found")))
      ∧ (∀ inst, lookupA r.instanceClocks raw.instance_ = some inst →
          (r.resolveClockReference raw ctx
              = .error (ctxError ctx "cannot override instance clock")
            ↔ (raw.template ≠ "" ∨ raw.type ≠ none ∨ raw.interval ≠ 0))
          ∧ (¬ (raw.template ≠ "" ∨ raw.type ≠ none ∨ raw.interval ≠ 0) →
              r.resolveClockReference raw ctx = .ok (inst, some raw.instance_))))
    ∧ (∀ raw : RawSourceReference, raw.instance_ ≠ "" →
      (lookupA r.instanceSources raw.instance_ = none →
        r.resolveSourceReference raw ctx
          = .error (ctxError ctx ("source instance \"" ++ raw.instance_ ++ "\" not found")))
      ∧ (∀ inst, lookupA r.instanceSources raw.instance_ = some inst →
          (r.resolveSourceReference raw ctx
              = .error (ctxError ctx "cannot override instance source")
            ↔ (raw.template ≠ "" ∨ raw.type ≠ none ∨ raw.clock ≠ none
                ∨ raw.min ≠ none ∨ raw.max ≠ none))
          ∧ (¬ (raw.template ≠ "" ∨ raw.type ≠ none ∨ raw.clock ≠ none
                ∨ raw.min ≠ none ∨ raw.max ≠ none) →
              r.resolveSourceReference raw ctx = .ok (inst, some raw.instance_))))
    ∧ (∀ raw : RawValueReference, raw.instance_ ≠ "" →
      (lookupA r.instanceValues raw.instance_ = none →
        r.resolveValue raw ctx
          = .error (ctxError ctx ("value instance \"" ++ raw.instance_ ++ "\" not found")))
      ∧ (∀ inst, lookupA r.instanceValues raw.instance_ = some inst →
          (r.resolveValue raw ctx
              = .error (ctxError ctx "cannot override instance value")
            ↔ (raw.template ≠ "" ∨ raw.source ≠ none ∨ raw.transforms ≠ []
                ∨ raw.reset.type ≠ ""))
          ∧ (¬ (raw.template ≠ "" ∨ raw.source ≠ none ∨ raw.transforms ≠ []
                ∨ raw.reset.type ≠ "") →
              r.resolveValue raw ctx = .ok inst))) := by
  refine ⟨?_, ?_, ?_⟩
  · intro raw hin
    constructor
    · intro hlk
      simp [Resolver.resolveClockReference, hin, hlk]
    · intro inst hlk
      constructor
      · constructor
        · intro hres
          by_contra hov
          simp [Resolver.resolveClockReference, hin, hlk, hov] at hres
        · intro hov
          simp [Resolver.resolveClockReference, hin, hlk, hov]
      · intro hov
        simp [Resolver.resolveClockReference, hin, hlk, hov]
  · intro raw hin
    constructor
    · intro hlk
      simp [Resolver.resolveSourceReference, hin, hlk]
    · intro inst hlk
      constructor
      · constructor
        · intro hres
          by_contra hov
          simp [Resolver.resolveSourceReference, hin, hlk, hov] at hres
        · intro hov
          simp [Resolver.resolveSourceReference, hin, hlk, hov]
      · intro hov
        simp [Resolver.resolveSourceReference, hin, hlk, hov]
  · intro raw hin
    constructor
    · intro hlk
      simp [Resolver.resolveValue, hin, hlk]
    · intro inst hlk
      constructor
      · constructor
        · intro hres
          by_contra hov
          simp [Resolver.resolveValue, hin, hlk, hov] at hres
        · intro hov
          simp [Resolver.resolveValue, hin, hlk, hov]
      · intro hov
        simp [Resolver.resolveValue, hin, hlk, hov]

/-- Witness for C5: under `witnessResolver`, a plain instance reference
returns the stored clock, an instance reference with a template name
fails with the cannot-override error, and an unknown instance name fails
with not-found. -/
theorem C5_witness :
    witnessResolver.resolveClockReference ⟨"c", "", none, 0⟩ []
      = .ok (⟨"periodic", 5⟩, some "c")
    ∧ witnessResolver.resolveClockReference ⟨"c", "t", none, 0⟩ []
      = .error (ctxError [] "cannot override instance clock")
    ∧ witnessResolver.resolveClockReference ⟨"missing", "", none, 0⟩ []
      = .error (ctxError [] ("clock instance \"missing\" not found")) := by
  obtain ⟨hc, _, _⟩ := C5_instance_reference witnessResolver []
  refine ⟨?_, ?_, ?_⟩
  · exact ((hc ⟨"c", "", none, 0⟩ (by decide)).2 ⟨"periodic", 5⟩ (by decide)).2 (by decide)
  · exact ((hc ⟨"c", "t", none, 0⟩ (by decide)).2 ⟨"periodic", 5⟩ (by decide)).1.mpr
      (by decide)
  · exact (hc ⟨"missing", "", none, 0⟩ (by decide)).1 (by decide)

/-- Claim C6: resolving a template reference with overrides starts from
the resolved template and overwrites only the fields whose override is
present: every other field equals the template's resolved value, list and
map fields (transforms, reset) are replaced wholesale rather than merged,
and the result carries no instance name (in the embedding the resolution
functions return no updated resolver state, so the result is cached under
no name). -/
theorem C6_template_override (r : Resolver) (ctx : List String) :
    (∀ (raw : RawClockReference) (tpl : ClockConfig),
      raw.instance_ = "" → raw.template ≠ "" →
      lookupA r.templateClocks raw.template = some tpl →
      r.resolveClockReference raw ctx
        = .ok ({ type := raw.type.getD tpl.type,
                 interval := if raw.interval ≠ 0 then raw.interval else tpl.interval }, none))
    ∧ (∀ (raw : RawSourceReference) (tpl : SourceConfig),
      raw.instance_ = "" → raw.template ≠ "" →
      lookupA r.templateSources raw.template = some tpl →
      (raw.clock = none →
        r.resolveSourceReference raw ctx
          = .ok ({ tpl with
              type := raw.type.getD tpl.type
              min := raw.min.getD tpl.min
              max := raw.max.getD tpl.max }, none))
      ∧ (∀ rc, raw.clock = some rc →
          (∀ e, r.resolveClockReference rc ctx = .error e →
            r.resolveSourceReference raw ctx = .error e)
          ∧ (∀ clk cr, r.resolveClockReference rc ctx = .ok (clk, cr) →
            r.resolveSourceReference raw ctx
              = .ok ({ tpl with
                  type := raw.type.getD tpl.type
                  clock := clk
                  clockRef := cr
                  min := raw.min.getD tpl.min
                  max := raw.max.getD tpl.max }, none))))
    ∧ (∀ (raw : RawValueReference) (tpl : ValueConfig),
      raw.instance_ = "" → raw.template ≠ "" →
      lookupA r.templateValues raw.template = some tpl →
      (raw.source = none →
        r.resolveValue raw ctx
          = .ok { tpl with
              transforms := if raw.transforms ≠ [] then raw.transforms else tpl.transforms
              reset := if raw.reset.type ≠ "" then raw.reset else tpl.reset })
      ∧ (∀ rs, raw.source = some rs →
          (∀ e, r.resolveSourceReference rs ctx = .error e →
            r.resolveValue raw ctx = .error e)
          ∧ (∀ src sr, r.resolveSourceReference rs ctx = .ok (src, sr) →
            r.resolveValue raw ctx
              = .ok { tpl with
                  source := src
                  sourceRef := sr
                  transforms := if raw.transforms ≠ [] then raw.transforms else tpl.transforms
                  reset := if raw.reset.type ≠ "" then raw.reset else tpl.reset }))) := by
  refine ⟨?_, ?_, ?_⟩
  · intro raw tpl hins htp hlk
    cases hty : raw.type with
    | none =>
      by_cases hiv : raw.interval = 0
      · simp [Resolver.resolveClockReference, hins, htp, hlk, hty, hiv]
      · simp [Resolver.resolveClockReference, hins, htp, hlk, hty, hiv]
    | some t =>
      by_cases hiv : raw.interval = 0
      · simp [Resolver.resolveClockReference, hins, htp, hlk, hty, hiv]
      · simp [Resolver.resolveClockReference, hins, htp, hlk, hty, hiv]
  · intro raw tpl hins htp hlk
    constructor
    · intro hck
      cases hty : raw.type with
      | none =>
        cases hmin : raw.min with
        | none =>
          cases hmax : raw.max with
          | none => simp [Resolver.resolveSourceReference, hins, htp, hlk, hty, hck, hmin, hmax]
          | some mx => simp [Resolver.resolveSourceReference, hins, htp, hlk, hty, hck, hmin, hmax]
        | some mn =>
          cases hmax : raw.max with
          | none => simp [Resolver.resolveSourceReference, hins, htp, hlk, hty, hck, hmin, hmax]
          | some mx => simp [Resolver.resolveSourceReference, hins, htp, hlk, hty, hck, hmin, hmax]
      | some t =>
        cases hmin : raw.min with
        | none =>
          cases hmax : raw.max with
          | none => simp [Resolver.resolveSourceReference, hins, htp, hlk, hty, hck, hmin, hmax]
          | some mx => simp [Resolver.resolveSourceReference, hins, htp, hlk, hty, hck, hmin, hmax]
        | some mn =>
          cases hmax : raw.max with
          | none => simp [Resolver.resolveSourceReference, hins, htp, hlk, hty, hck, hmin, hmax]
          | some mx => simp [Resolver.resolveSourceReference, hins, htp, hlk, hty, hck, hmin, hmax]
    · intro rc hck
      constructor
      · intro e he
        simp [Resolver.resolveSourceReference, hins, htp, hlk, hck, he]
      · intro clk cr hok
        cases hty : raw.type with
        | none =>
          cases hmin : raw.min with
          | none =>
            cases hmax : raw.max with
            | none => simp [Resolver.resolveSourceReference, hins, htp, hlk, hty, hck, hok, hmin, hmax]
            | some mx => simp [Resolver.resolveSourceReference, hins, htp, hlk, hty, hck, hok, hmin, hmax]
          | some mn =>
            cases hmax : raw.max with
            | none => simp [Resolver.resolveSourceReference, hins, htp, hlk, hty, hck, hok, hmin, hmax]
            | some mx => simp [Resolver.resolveSourceReference, hins, htp, hlk, hty, hck, hok, hmin, hmax]
        | some t =>
          cases hmin : raw.min with
          | none =>
            cases hmax : raw.max with
            | none => simp [Resolver.resolveSourceReference, hins, htp, hlk, hty, hck, hok, hmin, hmax]
            | some mx => simp [Resolver.resolveSourceReference, hins, htp, hlk, hty, hck, hok, hmin, hmax]
          | some mn =>
            cases hmax : raw.max with
            | none => simp [Resolver.resolveSourceReference, hins, htp, hlk, hty, hck, hok, hmin, hmax]
            | some mx => simp [Resolver.resolveSourceReference, hins, htp, hlk, hty, hck, hok, hmin, hmax]
  · intro raw tpl hins htp hlk
    constructor
    · intro hsrc
      by_cases htr : raw.transforms = []
      · by_cases hrs : raw.reset.type = ""
        · simp [Resolver.resolveValue, hins, htp, hlk, hsrc, htr, hrs]
        · simp [Resolver.resolveValue, hins, htp, hlk, hsrc, htr, hrs]
      · by_cases hrs : raw.reset.type = ""
        · simp [Resolver.resolveValue, hins, htp, hlk, hsrc, htr, hrs]
        · simp [Resolver.resolveValue, hins, htp, hlk, hsrc, htr, hrs]
    · intro rs hsrc
      constructor
      · intro e he
        simp [Resolver.resolveValue, hins, htp, hlk, hsrc, he]
      · intro src sr hok
        by_cases htr : raw.transforms = []
        · by_cases hrs2 : raw.reset.type = ""
          · simp [Resolver.resolveValue, hins, htp, hlk, hsrc, hok, htr, hrs2]
          · simp [Resolver.resolveValue, hins, htp, hlk, hsrc, hok, htr, hrs2]
        · by_cases hrs2 : raw.reset.type = ""
          · simp [Resolver.resolveValue, hins, htp, hlk, hsrc, hok, htr, hrs2]
          · simp [Resolver.resolveValue, hins, htp, hlk, hsrc, hok, htr, hrs2]

/-- Witness for C6: a template source reference overriding only `max`
keeps every other field equal to the template's resolved values. -/
theorem C6_witness :
    witnessResolver.resolveSourceReference ⟨"", "ts", none, none, none, some 42⟩ []
      = .ok (⟨"random_int", ⟨"periodic", 7⟩, none, 1, 42⟩, none) := by
  obtain ⟨_, hs, _⟩ := C6_template_override witnessResolver []
  exact ((hs ⟨"", "ts", none, none, none, some 42⟩
    ⟨"random_int", ⟨"periodic", 7⟩, none, 1, 9⟩ (by decide) (by decide) (by decide)).1
    (by decide))

/-- Claim C8: when reference resolution succeeds, the returned reference
name (`ClockRef` of a resolved source, `SourceRef` of a resolved value) is
non-nil exactly when the raw reference that produced it was an instance
reference, in which case it is that instance's name (and the config is
the registered instance); template references and inline definitions
yield a nil reference name. -/
theorem C8_ref_names (r : Resolver) (ctx : List String) :
    (∀ (raw : RawClockReference) (c : ClockConfig) (ref : Option String),
      r.resolveClockReference raw ctx = .ok (c, ref) →
      (raw.instance_ ≠ "" →
        ref = some raw.instance_ ∧ lookupA r.instanceClocks raw.instance_ = some c)
      ∧ (raw.instance_ = "" → ref = none))
    ∧ (∀ (raw : RawSourceReference) (sc : SourceConfig) (ref : Option String),
      r.resolveSourceReference raw ctx = .ok (sc, ref) →
      (raw.instance_ ≠ "" →
        ref = some raw.instance_ ∧ lookupA r.instanceSources raw.instance_ = some sc)
      ∧ (raw.instance_ = "" → ref = none))
    ∧ (∀ (raw : RawValueReference) (v : ValueConfig),
      raw.instance_ = "" → raw.template = "" →
      r.resolveValue raw ctx = .ok v →
      ∃ rs, raw.source = some rs
        ∧ r.resolveSourceReference rs ctx = .ok (v.source, v.sourceRef))
    ∧ (∀ (raw : RawValueReference) (rs : RawSourceReference) (v : ValueConfig),
      raw.instance_ = "" → raw.template ≠ "" → raw.source = some rs →
      r.resolveValue raw ctx = .ok v →
      r.resolveSourceReference rs ctx = .ok (v.source, v.sourceRef)) := by
  refine ⟨?_, ?_, ?_, ?_⟩
  · intro raw c ref hok
    by_cases hin : raw.instance_ = ""
    · refine ⟨fun h => absurd hin h, fun _ => ?_⟩
      rw [Resolver.resolveClockReference, if_neg (fun h => h hin)] at hok
      iterate 12 (all_goals (try split at hok))
      all_goals simp_all
    · refine ⟨fun _ => ?_, fun h => absurd h hin⟩
      cases hlk : lookupA r.instanceClocks raw.instance_ with
      | none => simp [Resolver.resolveClockReference, hin, hlk] at hok
      | some inst =>
        by_cases hov : raw.template ≠ "" ∨ raw.type ≠ none ∨ raw.interval ≠ 0
        · simp [Resolver.resolveClockReference, hin, hlk, hov] at hok
        · simp [Resolver.resolveClockReference, hin, hlk, hov] at hok
          exact ⟨hok.2.symm, congrArg some hok.1⟩
  · intro raw sc ref hok
    by_cases hin : raw.instance_ = ""
    · refine ⟨fun h => absurd hin h, fun _ => ?_⟩
      rw [Resolver.resolveSourceReference, if_neg (fun h => h hin)] at hok
      iterate 12 (all_goals (try split at hok))
      all_goals (try simp_all)
      iterate 4 (all_goals (try split at hok))
      all_goals simp_all
    · refine ⟨fun _ => ?_, fun h => absurd h hin⟩
      cases hlk : lookupA r.instanceSources raw.instance_ with
      | none => simp [Resolver.resolveSourceReference, hin, hlk] at hok
      | some inst =>
        by_cases hov : raw.template ≠ "" ∨ raw.type ≠ none ∨ raw.clock ≠ none
            ∨ raw.min ≠ none ∨ raw.max ≠ none
        · simp [Resolver.resolveSourceReference, hin, hlk, hov] at hok
        · simp [Resolver.resolveSourceReference, hin, hlk, hov] at hok
          exact ⟨hok.2.symm, congrArg some hok.1⟩
  · intro raw v hin htp hok
    cases hsrc : raw.source with
    | none => simp [Resolver.resolveValue, hin, htp, hsrc] at hok
    | some rs =>
      cases hsr : r.resolveSourceReference rs ctx with
      | error e => simp [Resolver.resolveValue, hin, htp, hsrc, hsr] at hok
      | ok pr =>
        obtain ⟨src, sref⟩ := pr
        refine ⟨rs, rfl, ?_⟩
        simp [Resolver.resolveValue, hin, htp, hsrc, hsr] at hok
        rw [← hok]
        exact hsr
  · intro raw rs v hin htp hsrc hok
    cases hlk : lookupA r.templateValues raw.template with
    | none => simp [Resolver.resolveValue, hin, htp, hlk] at hok
    | some tpl =>
      cases hsr : r.resolveSourceReference rs ctx with
      | error e => simp [Resolver.resolveValue, hin, htp, hlk, hsrc, hsr] at hok
      | ok pr =>
        obtain ⟨src, sref⟩ := pr
        by_cases htr : raw.transforms = []
        · by_cases hrs2 : raw.reset.type = ""
          · simp [Resolver.resolveValue, hin, htp, hlk, hsrc, hsr, htr, hrs2] at hok
            rw [← hok]
          · simp [Resolver.resolveValue, hin, htp, hlk, hsrc, hsr, htr, hrs2] at hok
            rw [← hok]
        · by_cases hrs2 : raw.reset.type = ""
          · simp [Resolver.resolveValue, hin, htp, hlk, hsrc, hsr, htr, hrs2] at hok
            rw [← hok]
          · simp [Resolver.resolveValue, hin, htp, hlk, hsrc, hsr, htr, hrs2] at hok
            rw [← hok]

/-- Witness for C8: an instance source reference yields the instance's
name and config; a template reference yields no reference name. -/
theorem C8_witness :
    ((some "s" : Option String) = some "s"
      ∧ lookupA witnessResolver.instanceSources "s"
          = some ⟨"random_int", ⟨"periodic", 5⟩, some "c", 0, 10⟩)
    ∧ (none : Option String) = none := by
  obtain ⟨_, hsrc, _, _⟩ := C8_ref_names witnessResolver []
  constructor
  · exact (hsrc ⟨"s", "", none, none, none, none⟩
      ⟨"random_int", ⟨"periodic", 5⟩, some "c", 0, 10⟩ (some "s") (by rfl)).1 (by decide)
  · exact (hsrc ⟨"", "ts", none, none, none, some 42⟩
      ⟨"random_int", ⟨"periodic", 7⟩, none, 1, 42⟩ none (by rfl)).2 (by rfl)

theorem lookupA_append {α : Type} (l1 l2 : List (String × α)) (k : String) :
    lookupA (l1 ++ l2) k
      = match lookupA l1 k with
        | some v => some v
        | none => lookupA l2 k := by
  induction l1 with
  | nil => simp [lookupA]
  | cons hd tl ih =>
    obtain ⟨k1, v1⟩ := hd
    by_cases h : k1 = k
    · simp [lookupA, h]
    · simp [lookupA, h, ih]

theorem lookupA_none_not_mem {α : Type} (l : List (String × α)) (k : String)
    (h : lookupA l k = none) : k ∉ l.map Prod.fst := by
  induction l with
  | nil => simp
  | cons hd tl ih =>
    obtain ⟨k1, v1⟩ := hd
    by_cases he : k1 = k
    · simp [lookupA, he] at h
    · simp only [lookupA, he, if_false] at h
      simp [ih h]
      exact fun hk => he hk.symm

/-- A successful `registerName` appends the new name; all other resolver
fields are untouched and key uniqueness is preserved. -/
theorem registerName_ok (r r1 : Resolver) (name k : String)
    (hreg : r.registerName name k = .ok r1) :
    r1 = { r with registeredNames := r.registeredNames ++ [(name, k)] }
    ∧ lookupA r.registeredNames name = none := by
  rw [Resolver.registerName] at hreg
  cases hlk : lookupA r.registeredNames name with
  | some t => rw [hlk] at hreg; simp at hreg
  | none =>
    rw [hlk] at hreg
    simp at hreg
    exact ⟨hreg.symm, rfl⟩

theorem registerName_nodup (r r1 : Resolver) (name k : String)
    (hreg : r.registerName name k = .ok r1)
    (hnd : (r.registeredNames.map Prod.fst).Nodup) :
    (r1.registeredNames.map Prod.fst).Nodup := by
  obtain ⟨hr1, hlk⟩ := registerName_ok r r1 name k hreg
  subst hr1
  simp only [List.map_append, List.map_cons, List.map_nil]
  rw [List.nodup_append]
  refine ⟨hnd, List.nodup_singleton _, ?_⟩
  intro a ha hb
  simp at hb
  subst hb
  exact lookupA_none_not_mem _ _ hlk ha

/-- The template-clock phase only adds clocks with non-empty type and
nonzero interval to the template registry. -/
theorem resolveTemplateClocksLoop_inv :
    ∀ (entries : List (String × RawClockReference)) (r r2 : Resolver),
      resolveTemplateClocksLoop r entries = .ok r2 →
      (∀ n c, lookupA r.templateClocks n = some c → c.type ≠ "" ∧ c.interval ≠ 0) →
      ∀ n c, lookupA r2.templateClocks n = some c → c.type ≠ "" ∧ c.interval ≠ 0 := by
  intro entries
  induction entries with
  | nil =>
    intro r r2 hok hinv
    simp [resolveTemplateClocksLoop] at hok
    subst hok
    exact hinv
  | cons e rest ih =>
    obtain ⟨name, raw⟩ := e
    intro r r2 hok hinv
    rw [resolveTemplateClocksLoop] at hok
    cases hreg : r.registerName name "template clock" with
    | error e2 => rw [hreg] at hok; simp at hok
    | ok r1 =>
      rw [hreg] at hok
      obtain ⟨hr1, -⟩ := registerName_ok r r1 name "template clock" hreg
      by_cases hty : getStringValue raw.type = ""
      · simp [hty] at hok
      · by_cases hiv : raw.interval = 0
        · simp [hty, hiv] at hok
        · simp only [hty, hiv, if_false, ite_false] at hok
          refine ih _ r2 hok ?_
          intro n c hl
          have hl2 : lookupA (r1.templateClocks
              ++ [(name, (⟨getStringValue raw.type, raw.interval⟩ : ClockConfig))]) n
              = some c := hl
          rw [lookupA_append] at hl2
          cases hl1 : lookupA r1.templateClocks n with
          | some c0 =>
            rw [hl1] at hl2
            simp at hl2
            subst hl2
            refine hinv n c0 ?_
            rw [hr1] at hl1
            exact hl1
          | none =>
            rw [hl1] at hl2
            simp only [lookupA] at hl2
            by_cases hnn : name = n
            · simp [hnn] at hl2
              rw [← hl2]
              exact ⟨hty, hiv⟩
            · simp [hnn] at hl2

/-- The instance-clock phase only adds clocks with non-empty type and
nonzero interval to the instance registry. -/
theorem resolveInstanceClocksLoop_inv :
    ∀ (entries : List (String × RawClockReference)) (r r2 : Resolver),
      resolveInstanceClocksLoop r entries = .ok r2 →
      (∀ n c, lookupA r.instanceClocks n = some c → c.type ≠ "" ∧ c.interval ≠ 0) →
      ∀ n c, lookupA r2.instanceClocks n = some c → c.type ≠ "" ∧ c.interval ≠ 0 := by
  intro entries
  induction entries with
  | nil =>
    intro r r2 hok hinv
    simp [resolveInstanceClocksLoop] at hok
    subst hok
    exact hinv
  | cons e rest ih =>
    obtain ⟨name, raw⟩ := e
    intro r r2 hok hinv
    rw [resolveInstanceClocksLoop] at hok
    cases hreg : r.registerName name "instance clock" with
    | error e2 => rw [hreg] at hok; simp at hok
    | ok r1 =>
      rw [hreg] at hok
      obtain ⟨hr1, -⟩ := registerName_ok r r1 name "instance clock" hreg
      by_cases hty : getStringValue raw.type = ""
      · simp [hty] at hok
      · by_cases hiv : raw.interval = 0
        · simp [hty, hiv] at hok
        · simp only [hty, hiv, if_false, ite_false] at hok
          refine ih _ r2 hok ?_
          intro n c hl
          have hl2 : lookupA (r1.instanceClocks
              ++ [(name, (⟨getStringValue raw.type, raw.interval⟩ : ClockConfig))]) n
              = some c := hl
          rw [lookupA_append] at hl2
          cases hl1 : lookupA r1.instanceClocks n with
          | some c0 =>
            rw [hl1] at hl2
            simp at hl2
            subst hl2
            refine hinv n c0 ?_
            rw [hr1] at hl1
            exact hl1
          | none =>
            rw [hl1] at hl2
            simp only [lookupA] at hl2
            by_cases hnn : name = n
            · simp [hnn] at hl2
              rw [← hl2]
              exact ⟨hty, hiv⟩
            · simp [hnn] at hl2

/-- Counterexample to claim C9 as stated: the code rejects only a zero
interval, not a non-positive one — an inline clock with interval -1
resolves successfully even though -1 is not positive — and a template
reference that overrides the type with the empty string resolves to a
clock with empty type without revalidation. -/
theorem C9_counterexample :
    newResolver.resolveClockReference ⟨"", "", some "periodic", -1⟩ []
      = .ok (⟨"periodic", -1⟩, none)
    ∧ ¬ (0 : Int) < -1
    ∧ witnessResolver.resolveClockReference ⟨"", "tc", some "", 0⟩ []
      = .ok (⟨"", 7⟩, none) :=
  ⟨by rfl, by decide, by rfl⟩

/-- Claim C9 (amended): every clock resolved as a template definition, an
instance definition, or an inline definition has non-empty type and
NONZERO (not necessarily positive) interval, and definition-site
resolution fails with the interval validation error when the interval is
zero; template references with overrides are not revalidated, so they are
excluded from the guarantee (see the counterexample). -/
theorem C9_clock_validation :
    (∀ (entries : List (String × RawClockReference)) (r r2 : Resolver),
      resolveTemplateClocksLoop r entries = .ok r2 →
      (∀ n c, lookupA r.templateClocks n = some c → c.type ≠ "" ∧ c.interval ≠ 0) →
      ∀ n c, lookupA r2.templateClocks n = some c → c.type ≠ "" ∧ c.interval ≠ 0)
    ∧ (∀ (entries : List (String × RawClockReference)) (r r2 : Resolver),
      resolveInstanceClocksLoop r entries = .ok r2 →
      (∀ n c, lookupA r.instanceClocks n = some c → c.type ≠ "" ∧ c.interval ≠ 0) →
      ∀ n c, lookupA r2.instanceClocks n = some c → c.type ≠ "" ∧ c.interval ≠ 0)
    ∧ (∀ (r : Resolver) (raw : RawClockReference) (ctx : List String) (c : ClockConfig)
        (ref : Option String),
        raw.instance_ = "" → raw.template = "" →
        r.resolveClockReference raw ctx = .ok (c, ref) →
        c.type ≠ "" ∧ c.interval ≠ 0)
    ∧ (∀ (r : Resolver) (name : String) (raw : RawClockReference)
        (rest : List (String × RawClockReference)) (r1 : Resolver),
        r.registerName name "template clock" = .ok r1 →
        getStringValue raw.type ≠ "" → raw.interval = 0 →
        resolveTemplateClocksLoop r ((name, raw) :: rest)
          = .error (ctxError (ctxPush [] "clock template" name) "interval required"))
    ∧ (∀ (r : Resolver) (raw : RawClockReference) (ctx : List String) (t : String),
        raw.instance_ = "" → raw.template = "" → raw.type = some t → t ≠ "" →
        raw.interval = 0 →
        r.resolveClockReference raw ctx = .error (ctxError ctx "clock interval required")) := by
  refine ⟨resolveTemplateClocksLoop_inv, resolveInstanceClocksLoop_inv, ?_, ?_, ?_⟩
  · intro r raw ctx c ref hin ht hok
    rw [Resolver.resolveClockReference] at hok
    rw [if_neg (by simp [hin])] at hok
    rw [if_neg (by simp [ht])] at hok
    cases hty : raw.type with
    | none => rw [hty] at hok; simp at hok
    | some t =>
      rw [hty] at hok
      by_cases h0 : t = ""
      · simp [h0] at hok
      · by_cases h1 : raw.interval = 0
        · simp [h0, h1] at hok
        · simp [h0, h1] at hok
          obtain ⟨hc, -⟩ := hok
          rw [← hc]
          exact ⟨h0, h1⟩
  · intro r name raw rest r1 hreg hty hiv
    rw [resolveTemplateClocksLoop, hreg]
    simp [hty, hiv]
  · intro r raw ctx t hin ht hty h0 h1
    rw [Resolver.resolveClockReference]
    rw [if_neg (by simp [hin])]
    rw [if_neg (by simp [ht])]
    rw [hty]
    simp [h0, h1]

/-- Witness for C9: a valid template clock entry passes the invariant, a
valid inline clock resolves with non-empty type and nonzero interval, and
zero-interval definitions are rejected with the interval-required error. -/
theorem C9_witness :
    (("periodic" : String) ≠ "" ∧ (7 : Int) ≠ 0)
    ∧ (("periodic" : String) ≠ "" ∧ (5 : Int) ≠ 0)
    ∧ resolveTemplateClocksLoop newResolver [("x", ⟨"", "", some "periodic", 0⟩)]
        = .error (ctxError (ctxPush [] "clock template" "x") "interval required")
    ∧ newResolver.resolveClockReference ⟨"", "", some "periodic", 0⟩ []
        = .error (ctxError [] "clock interval required") := by
  obtain ⟨h1, h2, h3, h4, h5⟩ := C9_clock_validation
  refine ⟨?_, ?_, ?_, ?_⟩
  · exact h1 [("tc2", ⟨"", "", some "periodic", 7⟩)] newResolver
      { newResolver with
          registeredNames := [("tc2", "template clock")]
          templateClocks := [("tc2", ⟨"periodic", 7⟩)] }
      (by rfl) (by intro n c h; simp [newResolver, lookupA] at h) "tc2" ⟨"periodic", 7⟩ (by rfl)
  · exact h3 newResolver ⟨"", "", some "periodic", 5⟩ [] ⟨"periodic", 5⟩ none rfl rfl (by rfl)
  · exact h4 newResolver "x" ⟨"", "", some "periodic", 0⟩ []
      { newResolver with registeredNames := [("x", "template clock")] }
      (by rfl) (by decide) rfl
  · exact h5 newResolver ⟨"", "", some "periodic", 0⟩ [] "periodic" rfl rfl rfl (by decide) rfl

/-- The template-clock phase preserves uniqueness of registered names. -/
theorem resolveTemplateClocksLoop_names :
    ∀ (entries : List (String × RawClockReference)) (r r2 : Resolver),
      resolveTemplateClocksLoop r entries = .ok r2 →
      (r.registeredNames.map Prod.fst).Nodup →
      (r2.registeredNames.map Prod.fst).Nodup := by
  intro entries
  induction entries with
  | nil =>
    intro r r2 hok hnd
    simp [resolveTemplateClocksLoop] at hok
    subst hok
    exact hnd
  | cons e rest ih =>
    obtain ⟨name, raw⟩ := e
    intro r r2 hok hnd
    rw [resolveTemplateClocksLoop] at hok
    split at hok
    · simp at hok
    · rename_i r1 hreg
      have hnd1 := registerName_nodup r r1 name "template clock" hreg hnd
      simp only [] at hok
      iterate 4 (all_goals (try split at hok))
      all_goals first
        | (exact ih _ r2 hok hnd1)
        | simp at hok

/-- The instance-clock phase preserves uniqueness of registered names. -/
theorem resolveInstanceClocksLoop_names :
    ∀ (entries : List (String × RawClockReference)) (r r2 : Resolver),
      resolveInstanceClocksLoop r entries = .ok r2 →
      (r.registeredNames.map Prod.fst).Nodup →
      (r2.registeredNames.map Prod.fst).Nodup := by
  intro entries
  induction entries with
  | nil =>
    intro r r2 hok hnd
    simp [resolveInstanceClocksLoop] at hok
    subst hok
    exact hnd
  | cons e rest ih =>
    obtain ⟨name, raw⟩ := e
    intro r r2 hok hnd
    rw [resolveInstanceClocksLoop] at hok
    split at hok
    · simp at hok
    · rename_i r1 hreg
      have hnd1 := registerName_nodup r r1 name "instance clock" hreg hnd
      simp only [] at hok
      iterate 4 (all_goals (try split at hok))
      all_goals first
        | (exact ih _ r2 hok hnd1)
        | simp at hok

/-- The template-source phase preserves uniqueness of registered names. -/
theorem resolveTemplateSourcesLoop_names :
    ∀ (entries : List (String × RawSourceReference)) (r r2 : Resolver),
      resolveTemplateSourcesLoop r entries = .ok r2 →
      (r.registeredNames.map Prod.fst).Nodup →
      (r2.registeredNames.map Prod.fst).Nodup := by
  intro entries
  induction entries with
  | nil =>
    intro r r2 hok hnd
    simp [resolveTemplateSourcesLoop] at hok
    subst hok
    exact hnd
  | cons e rest ih =>
    obtain ⟨name, raw⟩ := e
    intro r r2 hok hnd
    rw [resolveTemplateSourcesLoop] at hok
    split at hok
    · simp at hok
    · rename_i r1 hreg
      have hnd1 := registerName_nodup r r1 name "template source" hreg hnd
      simp only [] at hok
      iterate 8 (all_goals (try split at hok))
      all_goals first
        | (exact ih _ r2 hok hnd1)
        | simp at hok

/-- The instance-source phase preserves uniqueness of registered names. -/
theorem resolveInstanceSourcesLoop_names :
    ∀ (entries : List (String × RawSourceReference)) (r r2 : Resolver),
      resolveInstanceSourcesLoop r entries = .ok r2 →
      (r.registeredNames.map Prod.fst).Nodup →
      (r2.registeredNames.map Prod.fst).Nodup := by
  intro entries
  induction entries with
  | nil =>
    intro r r2 hok hnd
    simp [resolveInstanceSourcesLoop] at hok
    subst hok
    exact hnd
  | cons e rest ih =>
    obtain ⟨name, raw⟩ := e
    intro r r2 hok hnd
    rw [resolveInstanceSourcesLoop] at hok
    split at hok
    · simp at hok
    · rename_i r1 hreg
      have hnd1 := registerName_nodup r r1 name "instance source" hreg hnd
      simp only [] at hok
      iterate 8 (all_goals (try split at hok))
      all_goals first
        | (exact ih _ r2 hok hnd1)
        | simp at hok

/-- The template-value phase preserves uniqueness of registered names. -/
theorem resolveTemplateValuesLoop_names :
    ∀ (entries : List (String × RawValueReference)) (r r2 : Resolver),
      resolveTemplateValuesLoop r entries = .ok r2 →
      (r.registeredNames.map Prod.fst).Nodup →
      (r2.registeredNames.map Prod.fst).Nodup := by
  intro entries
  induction entries with
  | nil =>
    intro r r2 hok hnd
    simp [resolveTemplateValuesLoop] at hok
    subst hok
    exact hnd
  | cons e rest ih =>
    obtain ⟨name, raw⟩ := e
    intro r r2 hok hnd
    rw [resolveTemplateValuesLoop] at hok
    split at hok
    · simp at hok
    · rename_i r1 hreg
      have hnd1 := registerName_nodup r r1 name "template value" hreg hnd
      simp only [] at hok
      iterate 8 (all_goals (try split at hok))
      all_goals first
        | (exact ih _ r2 hok hnd1)
        | simp at hok

/-- The instance-value phase preserves uniqueness of registered names. -/
theorem resolveInstanceValuesLoop_names :
    ∀ (entries : List (String × RawValueReference)) (r r2 : Resolver),
      resolveInstanceValuesLoop r entries = .ok r2 →
      (r.registeredNames.map Prod.fst).Nodup →
      (r2.registeredNames.map Prod.fst).Nodup := by
  intro entries
  induction entries with
  | nil =>
    intro r r2 hok hnd
    simp [resolveInstanceValuesLoop] at hok
    subst hok
    exact hnd
  | cons e rest ih =>
    obtain ⟨name, raw⟩ := e
    intro r r2 hok hnd
    rw [resolveInstanceValuesLoop] at hok
    split at hok
    · simp at hok
    · rename_i r1 hreg
      have hnd1 := registerName_nodup r r1 name "instance value" hreg hnd
      simp only [] at hok
      iterate 8 (all_goals (try split at hok))
      all_goals first
        | (exact ih _ r2 hok hnd1)
        | simp at hok

/-- Claim C7: all registered entity names share one global namespace:
registering under an already-registered name fails with an error naming
the kind of the original registration; a successful registration adds
exactly the new name with its kind and leaves the rest unchanged; and
after a successful resolution pass the name registry holds pairwise
distinct names (each mapped to one entity kind). -/
theorem C7_namespace_uniqueness :
    (∀ (r : Resolver) (name k existing : String),
      lookupA r.registeredNames name = some existing →
      r.registerName name k = .error ("name \"" ++ name ++ "\" already used by "
        ++ existing ++ ", cannot reuse for " ++ k))
    ∧ (∀ (r : Resolver) (name k : String),
      lookupA r.registeredNames name = none →
      ∃ r1, r.registerName name k = .ok r1
        ∧ lookupA r1.registeredNames name = some k
        ∧ ∀ n2, n2 ≠ name → lookupA r1.registeredNames n2 = lookupA r.registeredNames n2)
    ∧ (∀ (raw raw2 : RawConfig) (r : Resolver) (ms : List MetricConfig),
      runResolve raw = .ok (raw2, r, ms) →
      (r.registeredNames.map Prod.fst).Nodup) := by
  refine ⟨?_, ?_, ?_⟩
  · intro r name k existing hlk
    rw [Resolver.registerName, hlk]
  · intro r name k hlk
    refine ⟨{ r with registeredNames := r.registeredNames ++ [(name, k)] }, ?_, ?_, ?_⟩
    · rw [Resolver.registerName, hlk]
    · rw [lookupA_append, hlk]
      simp [lookupA]
    · intro n2 hne
      rw [lookupA_append]
      cases h2 : lookupA r.registeredNames n2 with
      | some v => rfl
      | none =>
        simp only [lookupA]
        rw [if_neg (fun h => hne h.symm)]
  · intro raw raw2 r ms hok
    rw [runResolve] at hok
    cases h0 : expandIterators raw with
    | error e => rw [h0] at hok; simp at hok
    | ok rawe =>
      rw [h0] at hok
      simp only [] at hok
      cases h1 : resolveTemplateClocksLoop newResolver rawe.templates.clocks with
      | error e => rw [h1] at hok; simp at hok
      | ok r1 =>
        rw [h1] at hok
        simp only [] at hok
        cases h2 : resolveInstanceClocksLoop r1 rawe.instances.clocks with
        | error e => rw [h2] at hok; simp at hok
        | ok r2 =>
          rw [h2] at hok
          simp only [] at hok
          cases h3 : resolveTemplateSourcesLoop r2 rawe.templates.sources with
          | error e => rw [h3] at hok; simp at hok
          | ok r3 =>
            rw [h3] at hok
            simp only [] at hok
            cases h4 : resolveInstanceSourcesLoop r3 rawe.instances.sources with
            | error e => rw [h4] at hok; simp at hok
            | ok r4 =>
              rw [h4] at hok
              simp only [] at hok
              cases h5 : resolveTemplateValuesLoop r4 rawe.templates.values with
              | error e => rw [h5] at hok; simp at hok
              | ok r5 =>
                rw [h5] at hok
                simp only [] at hok
                cases h6 : resolveInstanceValuesLoop r5 rawe.instances.values with
                | error e => rw [h6] at hok; simp at hok
                | ok r6 =>
                  rw [h6] at hok
                  simp only [] at hok
                  rw [Resolver.resolveTemplateMetrics] at hok
                  simp only [] at hok
                  cases h8 : resolveMetricsLoop r6 rawe.metrics with
                  | error e => rw [h8] at hok; simp at hok
                  | ok ms2 =>
                    rw [h8] at hok
                    simp only [] at hok
                    simp at hok
                    obtain ⟨-, hr, -⟩ := hok
                    subst hr
                    have n0 : (newResolver.registeredNames.map Prod.fst).Nodup := by
                      simp [newResolver]
                    have n1 := resolveTemplateClocksLoop_names _ _ _ h1 n0
                    have n2 := resolveInstanceClocksLoop_names _ _ _ h2 n1
                    have n3 := resolveTemplateSourcesLoop_names _ _ _ h3 n2
                    have n4 := resolveInstanceSourcesLoop_names _ _ _ h4 n3
                    have n5 := resolveTemplateValuesLoop_names _ _ _ h5 n4
                    exact resolveInstanceValuesLoop_names _ _ _ h6 n5

/-- Witness for C7: a name collision across kinds produces the error
naming the original kind; a fresh registration stores the new kind and
leaves other names untouched; resolving an empty configuration yields a
registry with pairwise distinct names. -/
theorem C7_witness :
    ({ newResolver with registeredNames := [("a", "instance clock")] } : Resolver).registerName
        "a" "template source"
      = .error "name \"a\" already used by instance clock, cannot reuse for template source"
    ∧ lookupA (newResolver.registeredNames ++ [("b", "instance value")]) "b"
        = some "instance value"
    ∧ lookupA (newResolver.registeredNames ++ [("b", "instance value")]) "other"
        = lookupA newResolver.registeredNames "other"
    ∧ (newResolver.registeredNames.map Prod.fst).Nodup := by
  obtain ⟨h1, h2, h3⟩ := C7_namespace_uniqueness
  refine ⟨?_, ?_, ?_, ?_⟩
  · exact h1 { newResolver with registeredNames := [("a", "instance clock")] }
      "a" "template source" "instance clock" (by rfl)
  · obtain ⟨r1, ha, hb, hc⟩ := h2 newResolver "b" "instance value" (by rfl)
    have hx : newResolver.registerName "b" "instance value"
        = .ok ({ newResolver with
            registeredNames := newResolver.registeredNames ++ [("b", "instance value")] }
          : Resolver) := by rfl
    rw [hx] at ha
    have he2 : r1 = ({ newResolver with
        registeredNames := newResolver.registeredNames ++ [("b", "instance value")] }
      : Resolver) := by
      injection ha with h
      exact h.symm
    rw [he2] at hb
    exact hb
  · obtain ⟨r1, ha, hb, hc⟩ := h2 newResolver "b" "instance value" (by rfl)
    have hx : newResolver.registerName "b" "instance value"
        = .ok ({ newResolver with
            registeredNames := newResolver.registeredNames ++ [("b", "instance value")] }
          : Resolver) := by rfl
    rw [hx] at ha
    have he2 : r1 = ({ newResolver with
        registeredNames := newResolver.registeredNames ++ [("b", "instance value")] }
      : Resolver) := by
      injection ha with h
      exact h.symm
    rw [he2] at hc
    exact hc "other" (by decide)
  · exact h3 ⟨[], ⟨[], [], []⟩, ⟨[], [], []⟩, [], ⟨none, none⟩, ⟨none, ⟨false, ""⟩⟩⟩
      ⟨[], ⟨[], [], []⟩, ⟨[], [], []⟩, [], ⟨none, none⟩, ⟨none, ⟨false, ""⟩⟩⟩
      newResolver [] (by rfl)

/-- Claim C2: `Resolve` runs its phases in the fixed order (iterator
expansion, template clocks, instance clocks, template sources, instance
sources, template values, instance values, final metrics, export,
settings), so a template source referencing an already-defined instance
clock resolves successfully — its resolved clock comes from the instance
registry filled by the earlier phase — whereas running the
template-source phase before the instance-clock phase fails with a
clock-instance-not-found error. -/
theorem C2_phase_order (c s t st : String) (i : Int)
    (hc : c ≠ "") (hcs : c ≠ s) (ht : t ≠ "") (hst : st ≠ "") (hi : i ≠ 0) :
    runResolve (mkC2Raw c s t st i)
      = .ok (mkC2Raw c s t st i, mkC2Resolver c s t st i, [])
    ∧ lookupA (mkC2Resolver c s t st i).templateSources s = some ⟨st, ⟨t, i⟩, some c, 0, 0⟩
    ∧ Resolve (mkC2Raw c s t st i)
      = .ok { instances := ⟨[(c, ⟨t, i⟩)], [], []⟩
              metrics := []
              export_ := ⟨some ⟨true, 9090, "/metrics"⟩, none⟩
              settings := ⟨none, ⟨false, "native"⟩⟩ }
    ∧ resolveTemplateSourcesLoop newResolver
        [(s, ⟨"", "", some st, some ⟨c, "", none, 0⟩, none, none⟩)]
      = .error (ctxError (ctxPush [] "source template" s)
          ("clock instance \"" ++ c ++ "\" not found")) := by
  have hrun : runResolve (mkC2Raw c s t st i)
      = .ok (mkC2Raw c s t st i, mkC2Resolver c s t st i, []) := by
    rw [runResolve]
    rw [expandIterators]
    simp only [mkC2Raw, if_pos rfl]
    simp [runResolve, mkC2Raw, mkC2Resolver, resolveTemplateClocksLoop,
      resolveInstanceClocksLoop, resolveTemplateSourcesLoop, resolveInstanceSourcesLoop,
      resolveTemplateValuesLoop, resolveInstanceValuesLoop, Resolver.resolveTemplateMetrics,
      resolveMetricsLoop, Resolver.registerName, Resolver.resolveClockReference,
      newResolver, lookupA, getStringValue, SourceConfig.zero,
      hc, hcs, ht, hst, hi]
  refine ⟨hrun, ?_, ?_, ?_⟩
  · simp [mkC2Resolver, lookupA]
  · rw [Resolve, hrun]
    simp only []
    rw [show (mkC2Raw c s t st i).export_ = ⟨none, none⟩ from rfl]
    rw [show (mkC2Raw c s t st i).settings = ⟨none, ⟨false, ""⟩⟩ from rfl]
    rw [show resolveExport ⟨none, none⟩
      = .ok ⟨some ⟨true, 9090, "/metrics"⟩, none⟩ from rfl]
    rw [show resolveSettings ⟨none, ⟨false, ""⟩⟩
      = .ok ⟨none, ⟨false, "native"⟩⟩ from rfl]
    rfl
  · simp [resolveTemplateSourcesLoop, Resolver.registerName, newResolver, lookupA,
      Resolver.resolveClockReference, hc]

/-- Witness for C2: the concrete config with instance clock "c" and
template source "s" referencing it resolves end to end, while the
reversed phase order fails. -/
theorem C2_witness :
    runResolve (mkC2Raw "c" "s" "periodic" "random_int" 5)
      = .ok (mkC2Raw "c" "s" "periodic" "random_int" 5,
             mkC2Resolver "c" "s" "periodic" "random_int" 5, [])
    ∧ lookupA (mkC2Resolver "c" "s" "periodic" "random_int" 5).templateSources "s"
      = some ⟨"random_int", ⟨"periodic", 5⟩, some "c", 0, 0⟩
    ∧ Resolve (mkC2Raw "c" "s" "periodic" "random_int" 5)
      = .ok { instances := ⟨[("c", ⟨"periodic", 5⟩)], [], []⟩
              metrics := []
              export_ := ⟨some ⟨true, 9090, "/metrics"⟩, none⟩
              settings := ⟨none, ⟨false, "native"⟩⟩ }
    ∧ resolveTemplateSourcesLoop newResolver
        [("s", ⟨"", "", some "random_int", some ⟨"c", "", none, 0⟩, none, none⟩)]
      = .error (ctxError (ctxPush [] "source template" "s")
          ("clock instance \"c\" not found")) :=
  C2_phase_order "c" "s" "periodic" "random_int" 5
    (by decide) (by decide) (by decide) (by decide) (by decide)

theorem lookupA_mem_snd {α : Type} (l : List (String × α)) (n : String) (v : α)
    (h : lookupA l n = some v) : v ∈ l.map Prod.snd := by
  induction l with
  | nil => simp [lookupA] at h
  | cons hd tl ih =>
    obtain ⟨k, w⟩ := hd
    by_cases hk : k = n
    · simp [lookupA, hk] at h
      simp [h]
    · simp only [lookupA, hk, if_false] at h
      simp [ih h]

theorem mem_mapSet_snd {α : Type} (l : List (String × α)) (k : String) (v : α) (y : α)
    (h : y ∈ (mapSet l k v).map Prod.snd) : y ∈ l.map Prod.snd ∨ y = v := by
  induction l with
  | nil => simp [mapSet] at h; exact Or.inr h
  | cons hd tl ih =>
    obtain ⟨k0, v0⟩ := hd
    by_cases hk : k0 = k
    · simp [mapSet, hk] at h
      rcases h with h | h
      · exact Or.inr h
      · exact Or.inl (by simp [h])
    · simp only [mapSet, hk, if_false, List.map_cons, List.mem_cons] at h
      rcases h with h | h
      · exact Or.inl (by simp [h])
      · rcases ih h with h2 | h2
        · exact Or.inl (by simp [h2])
        · exact Or.inr h2

theorem cState_sourceInstances (g : GenState) (m : MetricConfig) :
    (cState g m).sourceInstances = g.sourceInstances := by
  rw [cState, getOrCreateClock]
  cases hr : m.value.source.clockRef with
  | none => rfl
  | some n =>
    simp only []
    cases hl : lookupA g.clockInstances n with
    | some clk => rfl
    | none => rfl

theorem cState_nextId (g : GenState) (m : MetricConfig) :
    g.nextId ≤ (cState g m).nextId := by
  rw [cState, getOrCreateClock]
  cases hr : m.value.source.clockRef with
  | none => simp
  | some n =>
    simp only []
    cases hl : lookupA g.clockInstances n with
    | some clk => simp
    | none => simp

theorem cState_ci_sub (g : GenState) (m : MetricConfig) (y : Nat)
    (h : y ∈ (cState g m).clockInstances.map Prod.snd) :
    y ∈ g.clockInstances.map Prod.snd ∨ y = g.nextId := by
  rw [cState, getOrCreateClock] at h
  cases hr : m.value.source.clockRef with
  | none => rw [hr] at h; exact Or.inl h
  | some n =>
    rw [hr] at h
    simp only [] at h
    cases hl : lookupA g.clockInstances n with
    | some clk => rw [hl] at h; exact Or.inl h
    | none =>
      rw [hl] at h
      simp only [] at h
      exact mem_mapSet_snd _ _ _ _ h

theorem cBind_cases (g : GenState) (m : MetricConfig) :
    cBind g m ∈ g.clockInstances.map Prod.snd ∨ cBind g m = g.nextId := by
  rw [cBind, getOrCreateClock]
  cases hr : m.value.source.clockRef with
  | none => exact Or.inr rfl
  | some n =>
    simp only []
    cases hl : lookupA g.clockInstances n with
    | some clk => exact Or.inl (lookupA_mem_snd _ _ _ hl)
    | none => exact Or.inr rfl

theorem cState_ci_persist (g : GenState) (m : MetricConfig) (n : String) (v : Nat)
    (h : lookupA g.clockInstances n = some v) :
    lookupA (cState g m).clockInstances n = some v := by
  rw [cState, getOrCreateClock]
  cases hr : m.value.source.clockRef with
  | none => exact h
  | some k =>
    simp only []
    cases hl : lookupA g.clockInstances k with
    | some clk => exact h
    | none =>
      have hne : n ≠ k := by
        intro he
        rw [he, hl] at h
        exact Option.noConfusion h
      simp only []
      rw [lookupA_mapSet_other _ _ _ _ hne]
      exact h

theorem cBind_hit (g : GenState) (m : MetricConfig) (n : String) (v : Nat)
    (hr : m.value.source.clockRef = some n) (hl : lookupA g.clockInstances n = some v) :
    cBind g m = v ∧ cState g m = g := by
  rw [cBind, cState, getOrCreateClock, hr]
  simp only []
  rw [hl]
  exact ⟨rfl, rfl⟩

theorem cState_cache_after (g : GenState) (m : MetricConfig) (n : String)
    (hr : m.value.source.clockRef = some n) :
    lookupA (cState g m).clockInstances n = some (cBind g m) := by
  rw [cBind, cState, getOrCreateClock, hr]
  simp only []
  cases hl : lookupA g.clockInstances n with
  | some clk => exact hl
  | none =>
    simp only []
    exact lookupA_mapSet_self _ _ _

theorem cBind_inline (g : GenState) (m : MetricConfig)
    (hr : m.value.source.clockRef = none) :
    cBind g m = g.nextId ∧ (cState g m).clockInstances = g.clockInstances
      ∧ (cState g m).nextId = g.nextId + 1 := by
  rw [cBind, cState, getOrCreateClock, hr]
  exact ⟨rfl, rfl, rfl⟩

theorem cState_frame (g : GenState) (m : MetricConfig) :
    (cState g m).metricClocks = g.metricClocks
    ∧ (cState g m).metricSources = g.metricSources
    ∧ (cState g m).metricValues = g.metricValues := by
  rw [cState, getOrCreateClock]
  cases hr : m.value.source.clockRef with
  | none => exact ⟨rfl, rfl, rfl⟩
  | some n =>
    simp only []
    cases hl : lookupA g.clockInstances n with
    | some clk => exact ⟨rfl, rfl, rfl⟩
    | none => exact ⟨rfl, rfl, rfl⟩

theorem sState_clockInstances (g : GenState) (m : MetricConfig) :
    (sState g m).clockInstances = (cState g m).clockInstances := by
  rw [sState, getOrCreateSource]
  cases hr : m.value.sourceRef with
  | none => rfl
  | some n =>
    simp only []
    cases hl : lookupA (cState g m).sourceInstances n with
    | some src => rfl
    | none => rfl

theorem sState_nextId (g : GenState) (m : MetricConfig) :
    (cState g m).nextId ≤ (sState g m).nextId := by
  rw [sState, getOrCreateSource]
  cases hr : m.value.sourceRef with
  | none => simp
  | some n =>
    simp only []
    cases hl : lookupA (cState g m).sourceInstances n with
    | some src => simp
    | none => simp

theorem sState_si_sub (g : GenState) (m : MetricConfig) (y : Nat)
    (h : y ∈ (sState g m).sourceInstances.map Prod.snd) :
    y ∈ (cState g m).sourceInstances.map Prod.snd ∨ y = (cState g m).nextId := by
  rw [sState, getOrCreateSource] at h
  cases hr : m.value.sourceRef with
  | none => rw [hr] at h; exact Or.inl h
  | some n =>
    rw [hr] at h
    simp only [] at h
    cases hl : lookupA (cState g m).sourceInstances n with
    | some src => rw [hl] at h; exact Or.inl h
    | none =>
      rw [hl] at h
      simp only [] at h
      exact mem_mapSet_snd _ _ _ _ h

theorem sBind_cases (g : GenState) (m : MetricConfig) :
    sBind g m ∈ (cState g m).sourceInstances.map Prod.snd
    ∨ sBind g m = (cState g m).nextId := by
  rw [sBind, getOrCreateSource]
  cases hr : m.value.sourceRef with
  | none => exact Or.inr rfl
  | some n =>
    simp only []
    cases hl : lookupA (cState g m).sourceInstances n with
    | some src => exact Or.inl (lookupA_mem_snd _ _ _ hl)
    | none => exact Or.inr rfl

theorem sState_si_persist (g : GenState) (m : MetricConfig) (n : String) (v : Nat)
    (h : lookupA (cState g m).sourceInstances n = some v) :
    lookupA (sState g m).sourceInstances n = some v := by
  rw [sState, getOrCreateSource]
  cases hr : m.value.sourceRef with
  | none => exact h
  | some k =>
    simp only []
    cases hl : lookupA (cState g m).sourceInstances k with
    | some src => exact h
    | none =>
      have hne : n ≠ k := by
        intro he
        rw [he, hl] at h
        exact Option.noConfusion h
      simp only []
      rw [lookupA_mapSet_other _ _ _ _ hne]
      exact h

theorem sBind_hit (g : GenState) (m : MetricConfig) (n : String) (v : Nat)
    (hr : m.value.sourceRef = some n)
    (hl : lookupA (cState g m).sourceInstances n = some v) :
    sBind g m = v ∧ sState g m = cState g m := by
  rw [sBind, sState, getOrCreateSource, hr]
  simp only []
  rw [hl]
  exact ⟨rfl, rfl⟩

theorem sState_cache_after (g : GenState) (m : MetricConfig) (n : String)
    (hr : m.value.sourceRef = some n) :
    lookupA (sState g m).sourceInstances n = some (sBind g m) := by
  rw [sBind, sState, getOrCreateSource, hr]
  simp only []
  cases hl : lookupA (cState g m).sourceInstances n with
  | some src => exact hl
  | none =>
    simp only []
    exact lookupA_mapSet_self _ _ _

theorem sBind_inline (g : GenState) (m : MetricConfig)
    (hr : m.value.sourceRef = none) :
    sBind g m = (cState g m).nextId
    ∧ (sState g m).sourceInstances = (cState g m).sourceInstances
    ∧ (sState g m).nextId = (cState g m).nextId + 1 := by
  rw [sBind, sState, getOrCreateSource, hr]
  exact ⟨rfl, rfl, rfl⟩

theorem sState_frame (g : GenState) (m : MetricConfig) :
    (sState g m).metricClocks = (cState g m).metricClocks
    ∧ (sState g m).metricSources = (cState g m).metricSources
    ∧ (sState g m).metricValues = (cState g m).metricValues := by
  rw [sState, getOrCreateSource]
  cases hr : m.value.sourceRef with
  | none => exact ⟨rfl, rfl, rfl⟩
  | some n =>
    simp only []
    cases hl : lookupA (cState g m).sourceInstances n with
    | some src => exact ⟨rfl, rfl, rfl⟩
    | none => exact ⟨rfl, rfl, rfl⟩

theorem newStep_clockInstances (g : GenState) (m : MetricConfig) :
    (newStep g m).clockInstances = (cState g m).clockInstances := by
  rw [newStep]
  show (vState g m).clockInstances = _
  rw [show (vState g m).clockInstances = (sState g m).clockInstances from rfl]
  exact sState_clockInstances g m

theorem newStep_sourceInstances (g : GenState) (m : MetricConfig) :
    (newStep g m).sourceInstances = (sState g m).sourceInstances := rfl

theorem newStep_nextId (g : GenState) (m : MetricConfig) :
    (newStep g m).nextId = (sState g m).nextId + 1 := rfl

theorem newStep_nextId_mono (g : GenState) (m : MetricConfig) :
    g.nextId ≤ (newStep g m).nextId := by
  rw [newStep_nextId]
  have h1 := cState_nextId g m
  have h2 := sState_nextId g m
  omega

theorem newStep_metricSources (g : GenState) (m : MetricConfig) :
    (newStep g m).metricSources = g.metricSources ++ [sBind g m] := by
  rw [newStep]
  show (vState g m).metricSources ++ [sBind g m] = _
  rw [show (vState g m).metricSources = (sState g m).metricSources from rfl]
  rw [(sState_frame g m).2.1, (cState_frame g m).2.1]

theorem newStep_metricClocks (g : GenState) (m : MetricConfig) :
    (newStep g m).metricClocks = g.metricClocks ++ [cBind g m] := by
  rw [newStep]
  show (vState g m).metricClocks ++ [cBind g m] = _
  rw [show (vState g m).metricClocks = (sState g m).metricClocks from rfl]
  rw [(sState_frame g m).1, (cState_frame g m).1]

theorem cBind_lt (g : GenState) (m : MetricConfig) (hw : WfG g) :
    cBind g m < (newStep g m).nextId := by
  rw [newStep_nextId]
  have h2 := sState_nextId g m
  rcases cBind_cases g m with h | h
  · have := hw.1 _ h
    have h1 := cState_nextId g m
    omega
  · have h1 : cBind g m < (cState g m).nextId := by
      cases hr : m.value.source.clockRef with
      | none =>
        obtain ⟨hb, -, hn⟩ := cBind_inline g m hr
        omega
      | some n =>
        cases hl : lookupA g.clockInstances n with
        | some v =>
          obtain ⟨hb, hs⟩ := cBind_hit g m n v hr hl
          have hv := hw.1 _ (lookupA_mem_snd _ _ _ hl)
          rw [hb, hs]
          exact hv
        | none =>
          have hb : cBind g m = g.nextId ∧ (cState g m).nextId = g.nextId + 1 := by
            rw [cBind, cState, getOrCreateClock, hr]
            simp only []
            rw [hl]
            exact ⟨rfl, rfl⟩
          omega
    omega

theorem sBind_lt (g : GenState) (m : MetricConfig) (hw : WfG g) :
    sBind g m < (newStep g m).nextId := by
  rw [newStep_nextId]
  rcases sBind_cases g m with h | h
  · rw [cState_sourceInstances] at h
    have := hw.2 _ h
    have h1 := cState_nextId g m
    have h2 := sState_nextId g m
    omega
  · have h2 := sState_nextId g m
    omega

theorem WfG_step (g : GenState) (m : MetricConfig) (hw : WfG g) : WfG (newStep g m) := by
  have h1 := cState_nextId g m
  have h2 := sState_nextId g m
  have h3 := newStep_nextId g m
  constructor
  · intro y hy
    rw [newStep_clockInstances] at hy
    rcases cState_ci_sub g m y hy with h | h
    · have := hw.1 _ h
      omega
    · omega
  · intro y hy
    rw [newStep_sourceInstances] at hy
    rcases sState_si_sub g m y hy with h | h
    · rw [cState_sourceInstances] at h
      have := hw.2 _ h
      omega
    · omega

theorem newStep_ci_persist (g : GenState) (m : MetricConfig) (n : String) (v : Nat)
    (h : lookupA g.clockInstances n = some v) :
    lookupA (newStep g m).clockInstances n = some v := by
  rw [newStep_clockInstances]
  exact cState_ci_persist g m n v h

theorem newStep_si_persist (g : GenState) (m : MetricConfig) (n : String) (v : Nat)
    (h : lookupA g.sourceInstances n = some v) :
    lookupA (newStep g m).sourceInstances n = some v := by
  rw [newStep_sourceInstances]
  refine sState_si_persist g m n v ?_
  rw [cState_sourceInstances]
  exact h

theorem newStep_c_cache (g : GenState) (m : MetricConfig) (n : String)
    (hr : m.value.source.clockRef = some n) :
    lookupA (newStep g m).clockInstances n = some (cBind g m) := by
  rw [newStep_clockInstances]
  exact cState_cache_after g m n hr

theorem newStep_s_cache (g : GenState) (m : MetricConfig) (n : String)
    (hr : m.value.sourceRef = some n) :
    lookupA (newStep g m).sourceInstances n = some (sBind g m) := by
  rw [newStep_sourceInstances]
  exact sState_cache_after g m n hr

theorem sourceBindings_length (g : GenState) (ms : List MetricConfig) :
    (sourceBindings g ms).length = ms.length := by
  induction ms generalizing g with
  | nil => rfl
  | cons m rest ih => simp [sourceBindings, ih]

theorem clockBindings_length (g : GenState) (ms : List MetricConfig) :
    (clockBindings g ms).length = ms.length := by
  induction ms generalizing g with
  | nil => rfl
  | cons m rest ih => simp [clockBindings, ih]

theorem newLoop_metricSources (g : GenState) (ms : List MetricConfig) :
    (newLoop g ms).metricSources = g.metricSources ++ sourceBindings g ms := by
  induction ms generalizing g with
  | nil => simp [newLoop, sourceBindings]
  | cons m rest ih =>
    rw [newLoop, sourceBindings, ih, newStep_metricSources]
    simp

theorem newLoop_metricClocks (g : GenState) (ms : List MetricConfig) :
    (newLoop g ms).metricClocks = g.metricClocks ++ clockBindings g ms := by
  induction ms generalizing g with
  | nil => simp [newLoop, clockBindings]
  | cons m rest ih =>
    rw [newLoop, clockBindings, ih, newStep_metricClocks]
    simp

/-- Once the source cache maps `n` to `v`, every later metric referencing
`instance: n` is bound to `v`. -/
theorem sourceBindings_of_cached :
    ∀ (ms : List MetricConfig) (g : GenState) (n : String) (v : Nat),
      lookupA g.sourceInstances n = some v →
      ∀ (k : Nat) (mk : MetricConfig), ms[k]? = some mk →
        mk.value.sourceRef = some n →
        (sourceBindings g ms)[k]? = some v := by
  intro ms
  induction ms with
  | nil => intro g n v hl k mk hk; simp at hk
  | cons m rest ih =>
    intro g n v hl k mk hk hr
    cases k with
    | zero =>
      simp at hk
      subst hk
      have hb : sBind g m = v := by
        refine (sBind_hit g m n v hr ?_).1
        rw [cState_sourceInstances]
        exact hl
      simp [sourceBindings, hb]
    | succ k =>
      simp only [sourceBindings, List.getElem?_cons_succ]
      simp only [List.getElem?_cons_succ] at hk
      exact ih (newStep g m) n v (newStep_si_persist g m n v hl) k mk hk hr

/-- Once the clock cache maps `n` to `v`, every later metric referencing
`instance: n` is bound to `v`. -/
theorem clockBindings_of_cached :
    ∀ (ms : List MetricConfig) (g : GenState) (n : String) (v : Nat),
      lookupA g.clockInstances n = some v →
      ∀ (k : Nat) (mk : MetricConfig), ms[k]? = some mk →
        mk.value.source.clockRef = some n →
        (clockBindings g ms)[k]? = some v := by
  intro ms
  induction ms with
  | nil => intro g n v hl k mk hk; simp at hk
  | cons m rest ih =>
    intro g n v hl k mk hk hr
    cases k with
    | zero =>
      simp at hk
      subst hk
      have hb : cBind g m = v := (cBind_hit g m n v hr hl).1
      simp [clockBindings, hb]
    | succ k =>
      simp only [clockBindings, List.getElem?_cons_succ]
      simp only [List.getElem?_cons_succ] at hk
      exact ih (newStep g m) n v (newStep_ci_persist g m n v hl) k mk hk hr

/-- Two metrics referencing the same named source instance are bound to
the same source object. -/
theorem sourceBindings_shared :
    ∀ (ms : List MetricConfig) (g : GenState) (n : String) (i j : Nat)
      (mi mj : MetricConfig),
      ms[i]? = some mi → ms[j]? = some mj →
      mi.value.sourceRef = some n → mj.value.sourceRef = some n →
      (sourceBindings g ms)[i]? = (sourceBindings g ms)[j]? := by
  intro ms
  induction ms with
  | nil => intro g n i j mi mj hi; simp at hi
  | cons m rest ih =>
    intro g n i j mi mj hi hj hri hrj
    cases i with
    | zero =>
      simp at hi
      subst hi
      cases j with
      | zero => rfl
      | succ j =>
        simp only [List.getElem?_cons_succ] at hj
        have hc := newStep_s_cache g m n hri
        have h2 := sourceBindings_of_cached rest (newStep g m) n (sBind g m) hc j mj hj hrj
        simp only [sourceBindings, List.getElem?_cons_succ, List.getElem?_cons_zero]
        exact h2.symm
    | succ i =>
      simp only [List.getElem?_cons_succ] at hi
      cases j with
      | zero =>
        simp at hj
        subst hj
        have hc := newStep_s_cache g m n hrj
        have h2 := sourceBindings_of_cached rest (newStep g m) n (sBind g m) hc i mi hi hri
        simp only [sourceBindings, List.getElem?_cons_succ, List.getElem?_cons_zero]
        exact h2
      | succ j =>
        simp only [List.getElem?_cons_succ] at hj
        simp only [sourceBindings, List.getElem?_cons_succ]
        exact ih (newStep g m) n i j mi mj hi hj hri hrj

/-- Two metrics referencing the same named clock instance are bound to
the same clock object. -/
theorem clockBindings_shared :
    ∀ (ms : List MetricConfig) (g : GenState) (n : String) (i j : Nat)
      (mi mj : MetricConfig),
      ms[i]? = some mi → ms[j]? = some mj →
      mi.value.source.clockRef = some n → mj.value.source.clockRef = some n →
      (clockBindings g ms)[i]? = (clockBindings g ms)[j]? := by
  intro ms
  induction ms with
  | nil => intro g n i j mi mj hi; simp at hi
  | cons m rest ih =>
    intro g n i j mi mj hi hj hri hrj
    cases i with
    | zero =>
      simp at hi
      subst hi
      cases j with
      | zero => rfl
      | succ j =>
        simp only [List.getElem?_cons_succ] at hj
        have hc := newStep_c_cache g m n hri
        have h2 := clockBindings_of_cached rest (newStep g m) n (cBind g m) hc j mj hj hrj
        simp only [clockBindings, List.getElem?_cons_succ, List.getElem?_cons_zero]
        exact h2.symm
    | succ i =>
      simp only [List.getElem?_cons_succ] at hi
      cases j with
      | zero =>
        simp at hj
        subst hj
        have hc := newStep_c_cache g m n hrj
        have h2 := clockBindings_of_cached rest (newStep g m) n (cBind g m) hc i mi hi hri
        simp only [clockBindings, List.getElem?_cons_succ, List.getElem?_cons_zero]
        exact h2
      | succ j =>
        simp only [List.getElem?_cons_succ] at hj
        simp only [clockBindings, List.getElem?_cons_succ]
        exact ih (newStep g m) n i j mi mj hi hj hri hrj

/-- An id that was allocated in the past and never cached as a source
instance never reappears among later source bindings. -/
theorem sourceBindings_avoid :
    ∀ (ms : List MetricConfig) (g : GenState) (x : Nat),
      x < g.nextId → x ∉ g.sourceInstances.map Prod.snd →
      ∀ k : Nat, (sourceBindings g ms)[k]? ≠ some x := by
  intro ms
  induction ms with
  | nil => intro g x hx hm k; simp [sourceBindings]
  | cons m rest ih =>
    intro g x hx hm k
    cases k with
    | zero =>
      simp only [sourceBindings, List.getElem?_cons_zero]
      intro he
      simp at he
      subst he
      rcases sBind_cases g m with h | h
      · rw [cState_sourceInstances] at h
        exact hm h
      · have := cState_nextId g m
        omega
    | succ k =>
      simp only [sourceBindings, List.getElem?_cons_succ]
      refine ih (newStep g m) x ?_ ?_ k
      · have := newStep_nextId_mono g m
        omega
      · intro hmem
        rw [newStep_sourceInstances] at hmem
        rcases sState_si_sub g m x hmem with h | h
        · rw [cState_sourceInstances] at h
          exact hm h
        · have := cState_nextId g m
          omega

/-- An id allocated in the past never reappears as the binding of a later
inline (reference-free) source. -/
theorem sourceBindings_inline_fresh :
    ∀ (ms : List MetricConfig) (g : GenState) (x : Nat),
      x < g.nextId →
      ∀ (k : Nat) (mk : MetricConfig), ms[k]? = some mk →
        mk.value.sourceRef = none →
        (sourceBindings g ms)[k]? ≠ some x := by
  intro ms
  induction ms with
  | nil => intro g x hx k mk hk; simp at hk
  | cons m rest ih =>
    intro g x hx k mk hk hr
    cases k with
    | zero =>
      simp at hk
      subst hk
      simp only [sourceBindings, List.getElem?_cons_zero]
      intro he
      simp at he
      obtain ⟨hb, -, -⟩ := sBind_inline g m hr
      have := cState_nextId g m
      omega
    | succ k =>
      simp only [List.getElem?_cons_succ] at hk
      simp only [sourceBindings, List.getElem?_cons_succ]
      refine ih (newStep g m) x ?_ k mk hk hr
      have := newStep_nextId_mono g m
      omega

theorem clockBindings_avoid :
    ∀ (ms : List MetricConfig) (g : GenState) (x : Nat),
      x < g.nextId → x ∉ g.clockInstances.map Prod.snd →
      ∀ k : Nat, (clockBindings g ms)[k]? ≠ some x := by
  intro ms
  induction ms with
  | nil => intro g x hx hm k; simp [clockBindings]
  | cons m rest ih =>
    intro g x hx hm k
    cases k with
    | zero =>
      simp only [clockBindings, List.getElem?_cons_zero]
      intro he
      simp at he
      subst he
      rcases cBind_cases g m with h | h
      · exact hm h
      · omega
    | succ k =>
      simp only [clockBindings, List.getElem?_cons_succ]
      refine ih (newStep g m) x ?_ ?_ k
      · have := newStep_nextId_mono g m
        omega
      · intro hmem
        rw [newStep_clockInstances] at hmem
        rcases cState_ci_sub g m x hmem with h | h
        · exact hm h
        · omega

theorem clockBindings_inline_fresh :
    ∀ (ms : List MetricConfig) (g : GenState) (x : Nat),
      x < g.nextId →
      ∀ (k : Nat) (mk : MetricConfig), ms[k]? = some mk →
        mk.value.source.clockRef = none →
        (clockBindings g ms)[k]? ≠ some x := by
  intro ms
  induction ms with
  | nil => intro g x hx k mk hk; simp at hk
  | cons m rest ih =>
    intro g x hx k mk hk hr
    cases k with
    | zero =>
      simp at hk
      subst hk
      simp only [clockBindings, List.getElem?_cons_zero]
      intro he
      simp at he
      obtain ⟨hb, -, -⟩ := cBind_inline g m hr
      omega
    | succ k =>
      simp only [List.getElem?_cons_succ] at hk
      simp only [clockBindings, List.getElem?_cons_succ]
      refine ih (newStep g m) x ?_ k mk hk hr
      have := newStep_nextId_mono g m
      omega

/-- A metric with an inline (reference-free) source gets a source object
distinct from every other metric's source object. -/
theorem sourceBindings_inline_distinct :
    ∀ (ms : List MetricConfig) (g : GenState), WfG g →
      ∀ (i j : Nat) (mi mj : MetricConfig), i ≠ j →
        ms[i]? = some mi → mi.value.sourceRef = none → ms[j]? = some mj →
        (sourceBindings g ms)[i]? ≠ (sourceBindings g ms)[j]? := by
  intro ms
  induction ms with
  | nil => intro g hw i j mi mj hne hi; simp at hi
  | cons m rest ih =>
    intro g hw i j mi mj hne hi hri hj
    cases i with
    | zero =>
      simp at hi
      subst hi
      cases j with
      | zero => exact absurd rfl hne
      | succ j =>
        simp only [List.getElem?_cons_succ] at hj
        simp only [sourceBindings, List.getElem?_cons_zero, List.getElem?_cons_succ]
        have havoid := sourceBindings_avoid rest (newStep g m) (sBind g m)
          (sBind_lt g m hw) ?_ j
        · exact fun h => havoid h.symm
        · obtain ⟨hb, hsi, -⟩ := sBind_inline g m hri
          intro hmem
          rw [newStep_sourceInstances, hsi, cState_sourceInstances] at hmem
          have := hw.2 _ hmem
          have := cState_nextId g m
          omega
    | succ i =>
      simp only [List.getElem?_cons_succ] at hi
      cases j with
      | zero =>
        simp at hj
        subst hj
        simp only [sourceBindings, List.getElem?_cons_zero, List.getElem?_cons_succ]
        exact sourceBindings_inline_fresh rest (newStep g m) (sBind g m)
          (sBind_lt g m hw) i mi hi hri
      | succ j =>
        simp only [List.getElem?_cons_succ] at hj
        simp only [sourceBindings, List.getElem?_cons_succ]
        exact ih (newStep g m) (WfG_step g m hw) i j mi mj
          (fun h => hne (by omega)) hi hri hj

/-- A metric with an inline (reference-free) clock gets a clock object
distinct from every other metric's clock object. -/
theorem clockBindings_inline_distinct :
    ∀ (ms : List MetricConfig) (g : GenState), WfG g →
      ∀ (i j : Nat) (mi mj : MetricConfig), i ≠ j →
        ms[i]? = some mi → mi.value.source.clockRef = none → ms[j]? = some mj →
        (clockBindings g ms)[i]? ≠ (clockBindings g ms)[j]? := by
  intro ms
  induction ms with
  | nil => intro g hw i j mi mj hne hi; simp at hi
  | cons m rest ih =>
    intro g hw i j mi mj hne hi hri hj
    cases i with
    | zero =>
      simp at hi
      subst hi
      cases j with
      | zero => exact absurd rfl hne
      | succ j =>
        simp only [List.getElem?_cons_succ] at hj
        simp only [clockBindings, List.getElem?_cons_zero, List.getElem?_cons_succ]
        have havoid := clockBindings_avoid rest (newStep g m) (cBind g m)
          (cBind_lt g m hw) ?_ j
        · exact fun h => havoid h.symm
        · obtain ⟨hb, hci, -⟩ := cBind_inline g m hri
          intro hmem
          rw [newStep_clockInstances, hci] at hmem
          have := hw.1 _ hmem
          omega
    | succ i =>
      simp only [List.getElem?_cons_succ] at hi
      cases j with
      | zero =>
        simp at hj
        subst hj
        simp only [clockBindings, List.getElem?_cons_zero, List.getElem?_cons_succ]
        exact clockBindings_inline_fresh rest (newStep g m) (cBind g m)
          (cBind_lt g m hw) i mi hi hri
      | succ j =>
        simp only [List.getElem?_cons_succ] at hj
        simp only [clockBindings, List.getElem?_cons_succ]
        exact ih (newStep g m) (WfG_step g m hw) i j mi mj
          (fun h => hne (by omega)) hi hri hj

/-- Claim C1: in the Lifecycle Manager (`generator.New`), any two metrics
whose value carries the same `sourceRef` name (resp. whose source carries
the same `clockRef` name) are bound to the exact same runtime source
(resp. clock) object — identity, modelled by allocation ids — while every
metric whose reference name is absent gets a freshly constructed object
that is never entered in the cache, so it is distinct from every other
metric's object (in particular, two structurally identical inline sources
yield distinct objects). -/
theorem C1_identity_sharing :
    (∀ ms : List MetricConfig,
      (GeneratorNew ms).metricSources.length = ms.length
      ∧ (GeneratorNew ms).metricClocks.length = ms.length)
    ∧ (∀ (ms : List MetricConfig) (i j : Nat) (mi mj : MetricConfig) (n : String),
        ms[i]? = some mi → ms[j]? = some mj →
        mi.value.sourceRef = some n → mj.value.sourceRef = some n →
        (GeneratorNew ms).metricSources[i]? = (GeneratorNew ms).metricSources[j]?)
    ∧ (∀ (ms : List MetricConfig) (i j : Nat) (mi mj : MetricConfig) (n : String),
        ms[i]? = some mi → ms[j]? = some mj →
        mi.value.source.clockRef = some n → mj.value.source.clockRef = some n →
        (GeneratorNew ms).metricClocks[i]? = (GeneratorNew ms).metricClocks[j]?)
    ∧ (∀ (ms : List MetricConfig) (i j : Nat) (mi mj : MetricConfig), i ≠ j →
        ms[i]? = some mi → mi.value.sourceRef = none → ms[j]? = some mj →
        (GeneratorNew ms).metricSources[i]? ≠ (GeneratorNew ms).metricSources[j]?)
    ∧ (∀ (ms : List MetricConfig) (i j : Nat) (mi mj : MetricConfig), i ≠ j →
        ms[i]? = some mi → mi.value.source.clockRef = none → ms[j]? = some mj →
        (GeneratorNew ms).metricClocks[i]? ≠ (GeneratorNew ms).metricClocks[j]?) := by
  have hms : ∀ ms : List MetricConfig,
      (GeneratorNew ms).metricSources = sourceBindings genInit ms := by
    intro ms
    rw [GeneratorNew, newLoop_metricSources]
    rfl
  have hmc : ∀ ms : List MetricConfig,
      (GeneratorNew ms).metricClocks = clockBindings genInit ms := by
    intro ms
    rw [GeneratorNew, newLoop_metricClocks]
    rfl
  have hwf : WfG genInit := by
    constructor
    · intro y hy; simp [genInit] at hy
    · intro y hy; simp [genInit] at hy
  refine ⟨?_, ?_, ?_, ?_, ?_⟩
  · intro ms
    rw [hms, hmc]
    exact ⟨sourceBindings_length _ _, clockBindings_length _ _⟩
  · intro ms i j mi mj n hi hj hri hrj
    rw [hms]
    exact sourceBindings_shared ms genInit n i j mi mj hi hj hri hrj
  · intro ms i j mi mj n hi hj hri hrj
    rw [hmc]
    exact clockBindings_shared ms genInit n i j mi mj hi hj hri hrj
  · intro ms i j mi mj hne hi hri hj
    rw [hms]
    exact sourceBindings_inline_distinct ms genInit hwf i j mi mj hne hi hri hj
  · intro ms i j mi mj hne hi hri hj
    rw [hmc]
    exact clockBindings_inline_distinct ms genInit hwf i j mi mj hne hi hri hj

/-- Witness for C1: the two metrics sharing `instance: s` (and clock
`instance: c`) are bound to the same source and clock objects, while the
two structurally identical inline metrics get pairwise distinct objects. -/
theorem C1_witness :
    (GeneratorNew c1Metrics).metricSources[0]? = (GeneratorNew c1Metrics).metricSources[1]?
    ∧ (GeneratorNew c1Metrics).metricClocks[0]? = (GeneratorNew c1Metrics).metricClocks[1]?
    ∧ (GeneratorNew c1Metrics).metricSources[2]? ≠ (GeneratorNew c1Metrics).metricSources[3]?
    ∧ (GeneratorNew c1Metrics).metricClocks[2]? ≠ (GeneratorNew c1Metrics).metricClocks[3]? := by
  obtain ⟨-, hs, hc, hds, hdc⟩ := C1_identity_sharing
  refine ⟨?_, ?_, ?_, ?_⟩
  · exact hs c1Metrics 0 1 (mShared "m1") (mShared "m2") "s" (by rfl) (by rfl) (by rfl) (by rfl)
  · exact hc c1Metrics 0 1 (mShared "m1") (mShared "m2") "c" (by rfl) (by rfl) (by rfl) (by rfl)
  · exact hds c1Metrics 2 3 (mInline "m3") (mInline "m4") (by decide) (by rfl) (by rfl) (by rfl)
  · exact hdc c1Metrics 2 3 (mInline "m3") (mInline "m4") (by decide) (by rfl) (by rfl) (by rfl)
